import Mathlib

/-!
# NovaChip8: the CHIP-8 interpreter core (emulator.h / emulator.cpp)

A shallow embedding of class Chip8 and of its member functions
Initialize, LoadProgram and Cycle, followed by theorems about them.

Conventions of the embedding.

* unsigned char and unsigned short values are natural numbers; every C++
  assignment that can leave the range of its target type carries an explicit
  reduction modulo 256 or 65536.
* An array of declared length n is a function on the naturals of which only
  the indices below n belong to the machine.  The C++ code indexes its arrays
  unchecked; an access at an index past the end has no defined behaviour, and
  the embedding stops there with a Fault naming the array and the index.
  Register indices are always 4-bit opcode fields, a loop counter bounded by
  such a field, or the constants 0 and 15, so register accesses need no check.
* rand() is an input of Cycle.  printf output is not part of the state.
-/

namespace NovaChip8

/-! ## Data model (emulator.h) -/

/-- An access outside the bounds of one of the fixed-length arrays. -/
inductive Fault where
  | memory (i : Nat)
  | stack (i : Nat)
  | display (i : Nat)
  | key (i : Nat)
  deriving DecidableEq

/-- The fields of class Chip8. -/
structure Chip8 where
  currentOpcode : Nat
  memory : Nat → Nat
  registers : Nat → Nat
  I : Nat
  PC : Nat
  delayTimer : Nat
  soundTimer : Nat
  stack : Nat → Nat
  SP : Nat
  display : Nat → Nat
  key : Nat → Nat
  drawFlag : Bool

/-- The 80-byte font table Chip8::fontset. -/
def fontset : List Nat :=
  [0xF0, 0x90, 0x90, 0x90, 0xF0,
   0x20, 0x60, 0x20, 0x20, 0x70,
   0xF0, 0x10, 0xF0, 0x80, 0xF0,
   0xF0, 0x10, 0xF0, 0x10, 0xF0,
   0x90, 0x90, 0xF0, 0x10, 0x10,
   0xF0, 0x80, 0xF0, 0x10, 0xF0,
   0xF0, 0x80, 0xF0, 0x90, 0xF0,
   0xF0, 0x10, 0x20, 0x40, 0x40,
   0xF0, 0x90, 0xF0, 0x90, 0xF0,
   0xF0, 0x90, 0xF0, 0x10, 0xF0,
   0xF0, 0x90, 0xF0, 0x90, 0x90,
   0xE0, 0x90, 0xE0, 0x90, 0xE0,
   0xF0, 0x80, 0x80, 0x80, 0xF0,
   0xE0, 0x90, 0x90, 0x90, 0xE0,
   0xF0, 0x80, 0xF0, 0x80, 0xF0,
   0xF0, 0x80, 0xF0, 0x80, 0x80]

/-- Array element assignment a[i] = v. -/
def upd (a : Nat → Nat) (i v : Nat) : Nat → Nat :=
  fun j => if j = i then v else a j

/-- The loop  for (int i = 0; i < n; i++) body  whose body cannot fault. -/
def forLoop {σ : Type} (body : Nat → σ → σ) : Nat → σ → σ
  | 0, s => s
  | n + 1, s => body n (forLoop body n s)

/-- The loop  for (int i = 0; i < n; i++) body  whose body may fault. -/
def forLoopM {σ : Type} (body : Nat → σ → Except Fault σ) : Nat → σ → Except Fault σ
  | 0, s => .ok s
  | n + 1, s =>
    match forLoopM body n s with
    | .ok t => body n t
    | .error e => .error e

/-- Read memory[i]. -/
def readMem (s : Chip8) (i : Nat) : Except Fault Nat :=
  if i < 4096 then .ok (s.memory i) else .error (.memory i)

/-- Assign memory[i] = v. -/
def writeMem (s : Chip8) (i v : Nat) : Except Fault Chip8 :=
  if i < 4096 then .ok { s with memory := upd s.memory i v } else .error (.memory i)

/-- Read stack[i]. -/
def readStack (s : Chip8) (i : Nat) : Except Fault Nat :=
  if i < 24 then .ok (s.stack i) else .error (.stack i)

/-- Assign stack[i] = v. -/
def writeStack (s : Chip8) (i v : Nat) : Except Fault Chip8 :=
  if i < 24 then .ok { s with stack := upd s.stack i v } else .error (.stack i)

/-- Read display[i]. -/
def readDisplay (s : Chip8) (i : Nat) : Except Fault Nat :=
  if i < 2048 then .ok (s.display i) else .error (.display i)

/-- Assign display[i] = v. -/
def writeDisplay (s : Chip8) (i v : Nat) : Except Fault Chip8 :=
  if i < 2048 then .ok { s with display := upd s.display i v } else .error (.display i)

/-- Read key[i]. -/
def readKey (s : Chip8) (i : Nat) : Except Fault Nat :=
  if i < 16 then .ok (s.key i) else .error (.key i)

/-- Assign registers[i] = v. -/
def setReg (s : Chip8) (i v : Nat) : Chip8 :=
  { s with registers := upd s.registers i v }

/-- The statement PC += 2 on the unsigned short PC. -/
def incPC (s : Chip8) : Chip8 :=
  { s with PC := (s.PC + 2) % 65536 }

/-! ## Initialize and LoadProgram -/

/-- Chip8::ClearRegisters. -/
def ClearRegisters (s : Chip8) : Chip8 :=
  forLoop (fun i t => setReg t i 0) 16 s

/-- Chip8::ClearMemory. -/
def ClearMemory (s : Chip8) : Chip8 :=
  forLoop (fun i t => { t with memory := upd t.memory i 0 }) 4096 s

/-- Chip8::ClearDisplay. -/
def ClearDisplay (s : Chip8) : Chip8 :=
  { forLoop (fun i t => { t with display := upd t.display i 0 }) 2048 s with drawFlag := true }

/-- Chip8::ClearStack. -/
def ClearStack (s : Chip8) : Chip8 :=
  forLoop (fun i t => { t with stack := upd t.stack i 0 }) 24 s

/-- Chip8::Initialize (the seeding of rand and the printf calls left out). -/
def Initialize (s : Chip8) : Chip8 :=
  let s := { s with currentOpcode := 0, I := 0, PC := 0x200,
                    delayTimer := 0, soundTimer := 0, SP := 0 }
  let s := ClearRegisters s
  let s := ClearMemory s
  let s := ClearDisplay s
  let s := ClearStack s
  let s := forLoop (fun i t => { t with memory := upd t.memory i (fontset.getD i 0) }) 80 s
  { s with drawFlag := true }

/-- Chip8::LoadProgram once the file has been read: buffer holds the bytes of
the file (each below 256), fileSize is its length.  The result is the return
value together with the machine. -/
def LoadProgram (buffer : List Nat) (s : Chip8) : Bool × Chip8 :=
  let fileSize := buffer.length
  let availableSpace := 4096 - 512
  if fileSize > availableSpace then (false, s)
  else
    (true, forLoop (fun i t => { t with memory := upd t.memory (i + 512) (buffer.getD i 0) })
      fileSize s)

/-! ## Cycle -/

/-- The local reg = (currentOpcode & 0x0F00) >> 8, an unsigned char. -/
def opReg (op : Nat) : Nat := ((op &&& 0x0F00) >>> 8) % 256

/-- The local reg2 = (currentOpcode & 0x00F0) >> 4, an unsigned char. -/
def opReg2 (op : Nat) : Nat := ((op &&& 0x00F0) >>> 4) % 256

/-- The local constA = currentOpcode & 0x00FF, an unsigned char. -/
def opConst (op : Nat) : Nat := (op &&& 0x00FF) % 256

/-- The statements  stack[SP] = PC; ++SP; PC = currentOpcode & 0x0FFF;  shared by
the 0NNN default case and 2NNN. -/
def call (s : Chip8) : Except Fault Chip8 :=
  match writeStack s s.SP s.PC with
  | .error e => .error e
  | .ok s =>
    let s := { s with SP := (s.SP + 1) % 65536 }
    .ok { s with PC := (s.currentOpcode &&& 0x0FFF) % 65536 }

/-- The case 0x0000 of the outer switch.  The statement --SP on the unsigned
short SP yields SP - 1, and 65535 when SP is 0. -/
def exec0 (s : Chip8) : Except Fault Chip8 :=
  if s.currentOpcode &&& 0x00FF = 0x00E0 then
    .ok (incPC (ClearDisplay s))
  else if s.currentOpcode &&& 0x00FF = 0x00EE then
    let s := { s with SP := if s.SP = 0 then 65535 else s.SP - 1 }
    match readStack s s.SP with
    | .error e => .error e
    | .ok a =>
      let s := { s with PC := a }
      .ok (incPC s)
  else
    call s

/-- The case 0x8000 of the outer switch; the inner switch has no default. -/
def exec8 (s : Chip8) : Chip8 :=
  let reg := opReg s.currentOpcode
  let reg2 := opReg2 s.currentOpcode
  let n := s.currentOpcode &&& 0x000F
  if n = 0x0000 then
    incPC (setReg s reg (s.registers reg2))
  else if n = 0x0001 then
    incPC (setReg s reg (s.registers reg ||| s.registers reg2))
  else if n = 0x0002 then
    incPC (setReg s reg (s.registers reg &&& s.registers reg2))
  else if n = 0x0003 then
    incPC (setReg s reg (s.registers reg ^^^ s.registers reg2))
  else if n = 0x0004 then
    let s := if s.registers reg + s.registers reg2 > 255 then setReg s 15 1 else setReg s 15 0
    let s := setReg s reg ((s.registers reg + s.registers reg2) % 256)
    incPC s
  else if n = 0x0005 then
    let s := if s.registers reg > s.registers reg2 then setReg s 15 1 else setReg s 15 0
    let s := setReg s reg (((s.registers reg : Int) - (s.registers reg2 : Int)) % 256).toNat
    incPC s
  else if n = 0x0006 then
    let s := setReg s 15 (s.registers reg2 &&& 0x01)
    let s := setReg s reg (s.registers reg2 >>> 1)
    incPC s
  else if n = 0x0007 then
    let s := if s.registers reg2 > s.registers reg then setReg s 15 1 else setReg s 15 0
    let s := setReg s reg (((s.registers reg2 : Int) - (s.registers reg : Int)) % 256).toNat
    incPC s
  else if n = 0x000E then
    let s := setReg s reg2 ((s.registers reg2 <<< 1) % 256)
    let s := setReg s reg (s.registers reg2)
    incPC s
  else
    s

/-- One pass of the inner loop of DXYN (column x of sprite row y). -/
def drawPixel (reg reg2 pixel y x : Nat) (s : Chip8) : Except Fault Chip8 :=
  if pixel &&& (0x80 >>> x) ≠ 0 then
    match readDisplay s (s.registers reg + x + (s.registers reg2 + y) * 64) with
    | .error e => .error e
    | .ok d =>
      let s := if d = 1 then setReg s 15 1 else s
      match readDisplay s (s.registers reg + x + (s.registers reg2 + y) * 64) with
      | .error e => .error e
      | .ok d2 => writeDisplay s (s.registers reg + x + (s.registers reg2 + y) * 64) (d2 ^^^ 1)
  else
    .ok s

/-- One pass of the outer loop of DXYN (sprite row y). -/
def drawRow (reg reg2 y : Nat) (s : Chip8) : Except Fault Chip8 :=
  match readMem s (s.I + y) with
  | .error e => .error e
  | .ok pixel => forLoopM (drawPixel reg reg2 pixel y) 8 s

/-- The case 0xD000 of the outer switch. -/
def execD (s : Chip8) : Except Fault Chip8 :=
  let reg := opReg s.currentOpcode
  let reg2 := opReg2 s.currentOpcode
  let constA := (s.currentOpcode &&& 0x000F) % 256
  let s := setReg s 15 0
  match forLoopM (drawRow reg reg2) constA s with
  | .error e => .error e
  | .ok s =>
    let s := { s with drawFlag := true }
    .ok (incPC s)

/-- The case 0xE000 of the outer switch; the inner switch has no default. -/
def execE (s : Chip8) : Except Fault Chip8 :=
  let reg := opReg s.currentOpcode
  if s.currentOpcode &&& 0x00FF = 0x009E then
    match readKey s (s.registers reg) with
    | .error e => .error e
    | .ok k =>
      let s := if k ≠ 0 then incPC s else s
      .ok (incPC s)
  else if s.currentOpcode &&& 0x00FF = 0x00A1 then
    match readKey s (s.registers reg) with
    | .error e => .error e
    | .ok k =>
      let s := if k = 0 then incPC s else s
      .ok (incPC s)
  else
    .ok s

/-- One pass of the key scan of FX0A; the second component is keyPress. -/
def scanKey (reg i : Nat) (st : Chip8 × Bool) : Chip8 × Bool :=
  if st.1.key i ≠ 0 then (setReg st.1 reg i, true) else st

/-- One pass of the loop of FX55. -/
def storeReg (i : Nat) (s : Chip8) : Except Fault Chip8 :=
  match writeMem s s.I (s.registers i) with
  | .error e => .error e
  | .ok s => .ok { s with I := (s.I + 1) % 65536 }

/-- One pass of the loop of FX65. -/
def loadReg (i : Nat) (s : Chip8) : Except Fault Chip8 :=
  match readMem s s.I with
  | .error e => .error e
  | .ok v =>
    let s := setReg s i v
    .ok { s with I := (s.I + 1) % 65536 }

/-- The case 0xF000 of the outer switch; the inner switch has no default.  The
second component of the result is true when Cycle returns from inside the
switch (FX0A without a pressed key). -/
def execF (s : Chip8) : Except Fault (Chip8 × Bool) :=
  let reg := opReg s.currentOpcode
  let nn := s.currentOpcode &&& 0x00FF
  if nn = 0x0007 then
    .ok (incPC (setReg s reg s.delayTimer), false)
  else if nn = 0x000A then
    let st := forLoop (scanKey reg) 16 (s, false)
    if st.2 = false then .ok (st.1, true)
    else .ok (incPC st.1, false)
  else if nn = 0x0015 then
    .ok (incPC { s with delayTimer := s.registers reg }, false)
  else if nn = 0x0018 then
    .ok (incPC { s with soundTimer := s.registers reg }, false)
  else if nn = 0x001E then
    let s := if s.I + s.registers reg > 0xFFF then setReg s 15 1 else setReg s 15 0
    let s := { s with I := (s.I + s.registers reg) % 65536 }
    .ok (incPC s, false)
  else if nn = 0x0029 then
    .ok (incPC { s with I := (s.registers reg * 0x5) % 65536 }, false)
  else if nn = 0x0033 then
    match writeMem s s.I (s.registers reg / 100) with
    | .error e => .error e
    | .ok s =>
      match writeMem s (s.I + 1) ((s.registers reg / 10) % 10) with
      | .error e => .error e
      | .ok s =>
        match writeMem s (s.I + 2) ((s.registers reg % 100) % 10) with
        | .error e => .error e
        | .ok s => .ok (incPC s, false)
  else if nn = 0x0055 then
    match forLoopM storeReg (reg + 1) s with
    | .error e => .error e
    | .ok s => .ok (incPC s, false)
  else if nn = 0x0065 then
    match forLoopM loadReg (reg + 1) s with
    | .error e => .error e
    | .ok s => .ok (incPC s, false)
  else
    .ok (s, false)

/-- A call of exec that always falls through to the code after the switch. -/
def through (r : Except Fault Chip8) : Except Fault (Chip8 × Bool) :=
  match r with
  | .error e => .error e
  | .ok s => .ok (s, false)

/-- The outer switch (currentOpcode & 0xF000) of Cycle; rnd is the value
returned by rand() should the instruction call it. -/
def execute (rnd : Nat) (s : Chip8) : Except Fault (Chip8 × Bool) :=
  let op := s.currentOpcode
  let top := op &&& 0xF000
  if top = 0x0000 then through (exec0 s)
  else if top = 0x1000 then
    .ok ({ s with PC := (op &&& 0x0FFF) % 65536 }, false)
  else if top = 0x2000 then through (call s)
  else if top = 0x3000 then
    let s := if s.registers (opReg op) = opConst op then incPC s else s
    .ok (incPC s, false)
  else if top = 0x4000 then
    let s := if s.registers (opReg op) ≠ opConst op then incPC s else s
    .ok (incPC s, false)
  else if top = 0x5000 then
    let s := if s.registers (opReg op) = s.registers (opReg2 op) then incPC s else s
    .ok (incPC s, false)
  else if top = 0x6000 then
    .ok (incPC (setReg s (opReg op) (opConst op)), false)
  else if top = 0x7000 then
    .ok (incPC (setReg s (opReg op) ((s.registers (opReg op) + opConst op) % 256)), false)
  else if top = 0x8000 then .ok (exec8 s, false)
  else if top = 0x9000 then
    let s := if s.registers (opReg op) ≠ s.registers (opReg2 op) then incPC s else s
    .ok (incPC s, false)
  else if top = 0xA000 then
    .ok (incPC { s with I := (op &&& 0x0FFF) % 65536 }, false)
  else if top = 0xB000 then
    .ok ({ s with PC := (s.registers 0 + (op &&& 0x0FFF) % 65536) % 65536 }, false)
  else if top = 0xC000 then
    .ok (incPC (setReg s (opReg op) (((rnd % 255) &&& opConst op) % 256)), false)
  else if top = 0xD000 then through (execD s)
  else if top = 0xE000 then through (execE s)
  else if top = 0xF000 then execF s
  else .ok (s, false)

/-- The code of Cycle after the switch: both timers count down. -/
def timers (s : Chip8) : Chip8 :=
  let s := if s.delayTimer > 0 then { s with delayTimer := s.delayTimer - 1 } else s
  if s.soundTimer > 0 then { s with soundTimer := s.soundTimer - 1 } else s

/-- The fetch  currentOpcode = memory[PC] << 8 | memory[PC + 1]. -/
def fetch (s : Chip8) : Except Fault Chip8 :=
  match readMem s s.PC with
  | .error e => .error e
  | .ok hi =>
    match readMem s (s.PC + 1) with
    | .error e => .error e
    | .ok lo => .ok { s with currentOpcode := (hi <<< 8 ||| lo) % 65536 }

/-- The end of Cycle: the timer code after the switch, unless Cycle has
returned from inside the switch. -/
def finish : Except Fault (Chip8 × Bool) → Except Fault Chip8
  | .error e => .error e
  | .ok (s, true) => .ok s
  | .ok (s, false) => .ok (timers s)

/-- Chip8::Cycle. -/
def Cycle (rnd : Nat) (s : Chip8) : Except Fault Chip8 :=
  match fetch s with
  | .error e => .error e
  | .ok s => finish (execute rnd s)

/-! ## Vocabulary of the statements -/

/-- The opcode word with nibbles h, x, y, n. -/
def word (h x y n : Nat) : Nat := 4096 * h + 256 * x + 16 * y + n

/-- The instruction at PC has nibbles h, x, y, n: both of its bytes lie inside
memory, memory[PC] = 16h + x and memory[PC + 1] = 16y + n. -/
def instrAt (s : Chip8) (h x y n : Nat) : Prop :=
  s.PC + 1 < 4096 ∧ s.memory s.PC = 16 * h + x ∧ s.memory (s.PC + 1) = 16 * y + n

/-- The highest index below n at which the array k is non-zero, if there is one. -/
def lastKey (k : Nat → Nat) : Nat → Option Nat
  | 0 => none
  | n + 1 => if k n ≠ 0 then some n else lastKey k n

/-- Successive calls of Cycle, n of them; rnd k is the value rand() returns if
call number k (from 0) asks for one. -/
def steps (rnd : Nat → Nat) : Nat → Chip8 → Except Fault Chip8
  | 0, s => .ok s
  | n + 1, s =>
    match steps rnd n s with
    | .ok t => Cycle (rnd n) t
    | .error e => .error e

/-- The low bits listed in claim C6: opcodes with top nibble 8, E or F that no
case of the inner switch matches. -/
def unmapped (h y n : Nat) : Prop :=
  (h = 8 ∧ (n = 8 ∨ n = 9 ∨ n = 0xA ∨ n = 0xB ∨ n = 0xC ∨ n = 0xD ∨ n = 0xF)) ∨
  (h = 0xE ∧ 16 * y + n ≠ 0x9E ∧ 16 * y + n ≠ 0xA1) ∨
  (h = 0xF ∧ 16 * y + n ≠ 0x07 ∧ 16 * y + n ≠ 0x0A ∧ 16 * y + n ≠ 0x15 ∧
    16 * y + n ≠ 0x18 ∧ 16 * y + n ≠ 0x1E ∧ 16 * y + n ≠ 0x29 ∧ 16 * y + n ≠ 0x33 ∧
    16 * y + n ≠ 0x55 ∧ 16 * y + n ≠ 0x65)

/-- Bit (7 - col) of sprite row number row, the byte memory[I + row]. -/
def spriteBit (s : Chip8) (row col : Nat) : Nat :=
  (s.memory (s.I + row) >>> (7 - col)) % 2

/-- The sprite cells in the order in which DXYN visits them: cell q is column
q mod 8 of row q div 8.  This is the framebuffer index DXYN computes for cell
q of a sprite drawn at (vx, vy). -/
def cellIdx (vx vy q : Nat) : Nat := vx + q % 8 + (vy + q / 8) * 64

/-- The test (pixel & (0x80 >> x)) != 0 of DXYN for cell q, where sprite maps a
row number to its byte. -/
def cellOn (sprite : Nat → Nat) (q : Nat) : Bool :=
  decide (sprite (q / 8) &&& (0x80 >>> (q % 8)) ≠ 0)

/-- The framebuffer after DXYN has visited the first q cells, starting from d0. -/
def dispAfter (sprite : Nat → Nat) (vx vy : Nat) (d0 : Nat → Nat) : Nat → Nat → Nat
  | 0 => d0
  | q + 1 =>
    if cellOn sprite q = true then
      upd (dispAfter sprite vx vy d0 q) (cellIdx vx vy q)
        (dispAfter sprite vx vy d0 q (cellIdx vx vy q) ^^^ 1)
    else dispAfter sprite vx vy d0 q

/-- The value of VF after DXYN has visited the first q cells, starting from d0. -/
def flagAfter (sprite : Nat → Nat) (vx vy : Nat) (d0 : Nat → Nat) : Nat → Nat
  | 0 => 0
  | q + 1 =>
    if cellOn sprite q = true ∧ dispAfter sprite vx vy d0 q (cellIdx vx vy q) = 1 then 1
    else flagAfter sprite vx vy d0 q

/-- The machine after DXYN has visited the first q cells of the sprite at I,
drawn at (vx, vy), starting from the machine s. -/
def drawn (s : Chip8) (vx vy q : Nat) : Chip8 :=
  { s with
    display := dispAfter (fun row => s.memory (s.I + row)) vx vy s.display q,
    registers := upd s.registers 15
      (flagAfter (fun row => s.memory (s.I + row)) vx vy s.display q) }

/-- A machine with every byte zero and PC at the program start 0x200. -/
def blank : Chip8 :=
  { currentOpcode := 0, memory := fun _ => 0, registers := fun _ => 0, I := 0, PC := 0x200,
    delayTimer := 0, soundTimer := 0, stack := fun _ => 0, SP := 0, display := fun _ => 0,
    key := fun _ => 0, drawFlag := false }

/-- The machine blank with the two-byte instruction hi lo at 0x200. -/
def withInstr (hi lo : Nat) : Chip8 :=
  { blank with memory := upd (upd blank.memory 0x200 hi) 0x201 lo }

/-- The machine blank with PC = pc and the two-byte instruction hi lo there. -/
def atAddr (pc hi lo : Nat) : Chip8 :=
  { blank with PC := pc, memory := upd (upd blank.memory pc hi) (pc + 1) lo }

/-- 80F4 (V0 += VF) with V0 = 1 and VF = 5. -/
def addFixture : Chip8 :=
  { withInstr 0x80 0xF4 with registers := upd (upd blank.registers 0 1) 15 5 }

/-- 8F04 (VF += V0) with VF = 0 and V0 = 3. -/
def addFlagFixture : Chip8 :=
  { withInstr 0x8F 0x04 with registers := upd blank.registers 0 3 }

/-- 8015 (V0 -= V1) with V0 = V1 = 7. -/
def subFixture : Chip8 :=
  { withInstr 0x80 0x15 with registers := upd (upd blank.registers 0 7) 1 7 }

/-- F00A with keys 1 and 2 both held down. -/
def keyFixture : Chip8 :=
  { withInstr 0xF0 0x0A with key := upd (upd blank.key 1 1) 2 1 }

/-- F00A with no key held down, delay timer 5 and sound timer 3. -/
def waitFixture : Chip8 :=
  { withInstr 0xF0 0x0A with delayTimer := 5, soundTimer := 3 }

/-- F155 at 0x200 and F165 at 0x202, with I = 0x300, V0 = 7 and V1 = 9. -/
def storeFixture : Chip8 :=
  { blank with
    memory := upd (upd (upd (upd blank.memory 0x200 0xF1) 0x201 0x55) 0x202 0xF1) 0x203 0x65,
    I := 0x300,
    registers := upd (upd blank.registers 0 7) 1 9 }

/-- The program 6A02 6B03 A000 DAB5. -/
def drawProgram : List Nat := [0x6A, 0x02, 0x6B, 0x03, 0xA0, 0x00, 0xDA, 0xB5]

/-- The machine after Initialize and LoadProgram of drawProgram. -/
def drawStart : Chip8 := (LoadProgram drawProgram (Initialize blank)).2

/-- D125 at 0x200 with V1 = 10, V2 = 4, I = 0x300, the sprite bytes C0 and 80 at
0x300 and 0x301, and pixel (10, 4) already set. -/
def drawFixture : Chip8 :=
  { blank with
    memory := upd (upd (upd (upd blank.memory 0x200 0xD1) 0x201 0x25) 0x300 0xC0) 0x301 0x80,
    I := 0x300,
    registers := upd (upd blank.registers 1 10) 2 4,
    display := upd blank.display (10 + 64 * 4) 1 }

/-- The program 2200: a call of its own address. -/
def callProgram : List Nat := [0x22, 0x00]

/-- The machine after Initialize and LoadProgram of callProgram. -/
def callStart : Chip8 := (LoadProgram callProgram (Initialize blank)).2

/-- The program 00E0 1200 of the clear-then-jump scenario. -/
def loopProgram : List Nat := [0x00, 0xE0, 0x12, 0x00]

/-- The machine after Initialize, from the machine s0, and LoadProgram of
loopProgram. -/
def loopStart (s0 : Chip8) : Chip8 := (LoadProgram loopProgram (Initialize s0)).2

/-- D121 at 0x200 with V1 = 60, V2 = 0, I = 0x300, the sprite byte FF at 0x300 and
a clear framebuffer: an 8-pixel row drawn from column 60. -/
def spillFixture : Chip8 :=
  { blank with
    memory := upd (upd (upd blank.memory 0x200 0xD1) 0x201 0x21) 0x300 0xFF,
    I := 0x300,
    registers := upd blank.registers 1 60 }

/-- D121 at 0x200 with V1 = 255, V2 = 30, I = 0x300 and the sprite byte 80 at
0x300: one pixel drawn at column 255 of row 30. -/
def edgeFixture : Chip8 :=
  { blank with
    memory := upd (upd (upd blank.memory 0x200 0xD1) 0x201 0x21) 0x300 0x80,
    I := 0x300,
    registers := upd (upd blank.registers 1 255) 2 30 }

/-- 8017 (V0 = V1 - V0) with V0 = V1 = 7. -/
def rsubFixture : Chip8 :=
  { withInstr 0x80 0x17 with registers := upd (upd blank.registers 0 7) 1 7 }

/-- F033 with V0 = 254 and I = 0x300. -/
def bcdFixture : Chip8 :=
  { withInstr 0xF0 0x33 with registers := upd blank.registers 0 254, I := 0x300 }

/-- 801E (V0 = V1 = V1 << 1) with V1 = 0x81 and VF = 1. -/
def shiftFixture : Chip8 :=
  { withInstr 0x80 0x1E with registers := upd (upd blank.registers 1 0x81) 15 1 }

/-- C0FF (V0 = random byte AND FF). -/
def randFixture : Chip8 := withInstr 0xC0 0xFF

/-- The unmapped opcode 8008. -/
def unknownFixture : Chip8 := withInstr 0x80 0x08

/-- 00EE with an empty stack (SP = 0). -/
def retFixture : Chip8 := withInstr 0x00 0xEE

/-! ## Bit-level facts used by the decoder -/

theorem and_shiftRight (a b : Nat) : ∀ k, (a &&& b) >>> k = (a >>> k) &&& (b >>> k)
  | 0 => rfl
  | k + 1 => by
    simp only [Nat.shiftRight_succ, and_shiftRight a b k, Nat.and_div_two]

theorem and_000F (op : Nat) : op &&& 0x000F = op % 16 :=
  Nat.and_pow_two_sub_one_eq_mod op 4

theorem and_00FF (op : Nat) : op &&& 0x00FF = op % 256 :=
  Nat.and_pow_two_sub_one_eq_mod op 8

theorem and_0FFF (op : Nat) : op &&& 0x0FFF = op % 4096 :=
  Nat.and_pow_two_sub_one_eq_mod op 12

theorem and_00F0_shr (op : Nat) : (op &&& 0x00F0) >>> 4 = (op / 16) % 16 := by
  rw [and_shiftRight, Nat.shiftRight_eq_div_pow]
  exact Nat.and_pow_two_sub_one_eq_mod _ 4

theorem and_0F00_shr (op : Nat) : (op &&& 0x0F00) >>> 8 = (op / 256) % 16 := by
  rw [and_shiftRight, Nat.shiftRight_eq_div_pow]
  exact Nat.and_pow_two_sub_one_eq_mod _ 4

theorem and_F000 (op : Nat) : op &&& 0xF000 = 4096 * ((op / 4096) % 16) := by
  have h1 : (op &&& 0xF000) >>> 12 = (op / 4096) % 16 := by
    rw [and_shiftRight, Nat.shiftRight_eq_div_pow]
    exact Nat.and_pow_two_sub_one_eq_mod _ 4
  have h2 : (op &&& 0xF000) % 4096 = 0 := by
    rw [← and_0FFF, Nat.and_assoc]
    exact Nat.and_zero op
  rw [Nat.shiftRight_eq_div_pow] at h1
  omega

theorem shl8_or (hi lo : Nat) (h : lo < 256) : (hi <<< 8 ||| lo) = 256 * hi + lo := by
  have := Nat.mul_add_lt_is_or (show lo < 2 ^ 8 from h) hi
  rw [Nat.shiftLeft_eq, Nat.mul_comm hi]
  exact this.symm

theorem word_top {h x y n : Nat} (hh : h < 16) (hx : x < 16) (hy : y < 16) (hn : n < 16) :
    word h x y n &&& 0xF000 = 4096 * h := by
  rw [and_F000]; unfold word; omega

theorem word_reg {h x y n : Nat} (hx : x < 16) (hy : y < 16) (hn : n < 16) :
    opReg (word h x y n) = x := by
  unfold opReg; rw [and_0F00_shr]; unfold word; omega

theorem word_reg2 {h x y n : Nat} (hy : y < 16) (hn : n < 16) :
    opReg2 (word h x y n) = y := by
  unfold opReg2; rw [and_00F0_shr]; unfold word; omega

theorem word_low {h x y n : Nat} (hn : n < 16) :
    word h x y n &&& 0x000F = n := by
  rw [and_000F]; unfold word; omega

theorem word_byte {h x y n : Nat} (hy : y < 16) (hn : n < 16) :
    word h x y n &&& 0x00FF = 16 * y + n := by
  rw [and_00FF]; unfold word; omega

theorem word_addr {h x y n : Nat} (hx : x < 16) (hy : y < 16) (hn : n < 16) :
    word h x y n &&& 0x0FFF = 256 * x + 16 * y + n := by
  rw [and_0FFF]; unfold word; omega

theorem fetch_instrAt {s : Chip8} {h x y n : Nat} (hi : instrAt s h x y n)
    (hh : h < 16) (hx : x < 16) (hy : y < 16) (hn : n < 16) :
    fetch s = .ok { s with currentOpcode := word h x y n } := by
  obtain ⟨hpc, h1, h2⟩ := hi
  have hpc0 : s.PC < 4096 := by omega
  unfold fetch readMem
  simp only [hpc0, hpc, if_true, h1, h2]
  rw [shl8_or _ _ (by omega)]
  have : (256 * (16 * h + x) + (16 * y + n)) % 65536 = word h x y n := by
    unfold word; omega
  rw [this]

theorem Cycle_of_fetch (r : Nat) {s t : Chip8} (h : fetch s = .ok t) :
    Cycle r s = finish (execute r t) := by
  unfold Cycle
  rw [h]

/-- The step once the instruction at PC is known. -/
theorem Cycle_instrAt (r : Nat) {s : Chip8} {h x y n : Nat} (hi : instrAt s h x y n)
    (hh : h < 16) (hx : x < 16) (hy : y < 16) (hn : n < 16) :
    Cycle r s = finish (execute r { s with currentOpcode := word h x y n }) :=
  Cycle_of_fetch r (fetch_instrAt hi hh hx hy hn)

@[simp]
theorem finish_through_ok (s : Chip8) : finish (through (.ok s)) = .ok (timers s) := rfl

@[simp]
theorem finish_ok_false (s : Chip8) : finish (.ok (s, false)) = .ok (timers s) := rfl

/-! ## The timer code leaves everything but the timers alone -/

theorem timers_fields (s : Chip8) :
    (timers s).PC = s.PC ∧ (timers s).registers = s.registers ∧ (timers s).I = s.I ∧
    (timers s).memory = s.memory ∧ (timers s).stack = s.stack ∧ (timers s).SP = s.SP ∧
    (timers s).display = s.display ∧ (timers s).key = s.key ∧
    (timers s).drawFlag = s.drawFlag ∧ (timers s).currentOpcode = s.currentOpcode := by
  unfold timers
  by_cases h1 : s.delayTimer > 0 <;> by_cases h2 : s.soundTimer > 0 <;> simp [h1, h2]

/-! ## 8XY4: the flag is written before the operands are added -/

/-- C2, evaluated on two machines.  With 80F4, V0 = 1 and VF = 5 the step
leaves V0 = 1 (the claim gives (1 + 5) mod 256 = 6) because VF has already been
overwritten by the carry 0 when it is added.  With 8F04, VF = 0 and V0 = 3 the
step leaves VF = 3 (the claim gives the carry 0) because V0 is added to the
carry just written. -/
theorem add_reads_flag_after_writing_it :
    (∃ t, Cycle 0 addFixture = .ok t ∧ t.registers 0 = 1 ∧ t.registers 15 = 0) ∧
    (∃ t, Cycle 0 addFlagFixture = .ok t ∧ t.registers 15 = 3) :=
  ⟨⟨_, rfl, rfl, rfl⟩, ⟨_, rfl, rfl⟩⟩

/-! ## 8XY5: the comparison is strict -/

/-- C3, evaluated on 8015 with V0 = V1 = 7: the step leaves VF = 0 although
V0 >= V1 and no borrow occurs (the claim gives VF = 1); V0 becomes 0. -/
theorem sub_equal_operands_clears_flag :
    ∃ t, Cycle 0 subFixture = .ok t ∧ t.registers 15 = 0 ∧ t.registers 0 = 0 ∧
      subFixture.registers 0 = 7 ∧ subFixture.registers 1 = 7 :=
  ⟨_, rfl, rfl, rfl, rfl, rfl⟩

/-! ## FX0A without a key returns before the timer code -/

/-- C5, evaluated on F00A with no key held down, delay timer 5 and sound timer
3: the step returns with both timers unchanged (the claim gives 4 and 2), and
with PC unchanged. -/
theorem wait_for_key_skips_timers :
    ∃ t, Cycle 0 waitFixture = .ok t ∧ t.delayTimer = 5 ∧ t.soundTimer = 3 ∧
      t.PC = waitFixture.PC :=
  ⟨_, rfl, rfl, rfl, rfl⟩

/-! ## 00EE on an empty stack -/

/-- C10, evaluated on 00EE with SP = 0: the step decrements SP from 0 to 65535
and then reads stack[65535], outside the 24 entries of the stack; no state is
returned, unchanged or otherwise. -/
theorem return_on_empty_stack_reads_outside :
    retFixture.SP = 0 ∧ Cycle 0 retFixture = .error (.stack 65535) :=
  ⟨rfl, rfl⟩

/-! ## FX0A with a key held down -/

theorem lastKey_spec (k : Nat → Nat) : ∀ n i, lastKey k n = some i →
    i < n ∧ k i ≠ 0 ∧ ∀ j, i < j → j < n → k j = 0
  | 0, i, h => by simp [lastKey] at h
  | n + 1, i, h => by
    unfold lastKey at h
    by_cases hk : k n ≠ 0
    · rw [if_pos hk] at h
      have hin : n = i := Option.some.inj h
      subst hin
      exact ⟨Nat.lt_succ_self _, hk, fun j h1 h2 => absurd h2 (by omega)⟩
    · rw [if_neg hk] at h
      obtain ⟨h1, h2, h3⟩ := lastKey_spec k n i h
      refine ⟨Nat.lt_succ_of_lt h1, h2, fun j hj1 hj2 => ?_⟩
      by_cases hjn : j = n
      · subst hjn; exact not_not.mp hk
      · exact h3 j hj1 (by omega)

theorem lastKey_none (k : Nat → Nat) : ∀ n, lastKey k n = none → ∀ i, i < n → k i = 0
  | 0, _, i, hi => absurd hi (Nat.not_lt_zero i)
  | n + 1, h, i, hi => by
    unfold lastKey at h
    by_cases hk : k n ≠ 0
    · rw [if_pos hk] at h; cases h
    · rw [if_neg hk] at h
      by_cases hin : i = n
      · subst hin; exact not_not.mp hk
      · exact lastKey_none k n h i (by omega)

theorem setReg_setReg (s : Chip8) (x a b : Nat) : setReg (setReg s x a) x b = setReg s x b := by
  unfold setReg
  congr 1
  funext j
  simp only [upd]
  split <;> rfl

theorem scan_fields (x : Nat) (s : Chip8) : ∀ n,
    forLoop (scanKey x) n (s, false) =
      match lastKey s.key n with
      | none => (s, false)
      | some i => (setReg s x i, true)
  | 0 => rfl
  | n + 1 => by
    have ih := scan_fields x s n
    simp only [forLoop, lastKey]
    rw [ih]
    cases hl : lastKey s.key n with
    | none =>
      by_cases hk : s.key n ≠ 0
      · simp [scanKey, hk]
      · simp [scanKey, hk, hl]
    | some i =>
      have hkey : (setReg s x i).key = s.key := rfl
      by_cases hk : s.key n ≠ 0
      · simp [scanKey, hk, hkey, setReg_setReg]
      · simp [scanKey, hk, hkey, hl]

theorem execute_F (r : Nat) (s : Chip8) {x y n : Nat} (hx : x < 16) (hy : y < 16) (hn : n < 16)
    (hop : s.currentOpcode = word 0xF x y n) : execute r s = execF s := by
  have ht := word_top (h := 0xF) (by decide) hx hy hn
  unfold execute
  simp [hop, ht]

/-- The step on FX0A when some key is held down. -/
theorem Cycle_waitKey (r : Nat) (s : Chip8) {x i : Nat} (hx : x < 16)
    (hi : instrAt s 0xF x 0 0xA) (hl : lastKey s.key 16 = some i) :
    Cycle r s = .ok (timers (incPC (setReg { s with currentOpcode := word 0xF x 0 0xA } x i))) := by
  rw [Cycle_instrAt r hi (by decide) hx (by decide) (by decide),
    execute_F r _ hx (by decide) (by decide) rfl]
  unfold execF
  have hb := word_byte (h := 0xF) (x := x) (y := 0) (n := 0xA) (by decide) (by decide)
  have hr := word_reg (h := 0xF) (x := x) (y := 0) (n := 0xA) hx (by decide) (by decide)
  simp only [hb, hr]
  rw [scan_fields]
  simp [hl]

/-- C4 fails as stated.  On F00A with keys 1 and 2 both held down the lowest
pressed key is 1, but the step leaves V0 = 2. -/
theorem wait_for_key_not_lowest :
    instrAt keyFixture 0xF 0 0 0xA ∧ keyFixture.key 1 ≠ 0 ∧
    (∀ i, i < 1 → keyFixture.key i = 0) ∧
    ∃ t, Cycle 0 keyFixture = .ok t ∧ t.registers 0 = 2 ∧ t.registers 0 ≠ 1 :=
  ⟨⟨by decide, rfl, rfl⟩, by decide, fun i hi => by interval_cases i; rfl,
    _, rfl, rfl, by decide⟩

/-- C4 as amended.  When the instruction at PC is FX0A and at least one of the
16 keys is non-zero, one step advances PC by exactly 2 and leaves in VX the
largest index i in 0..15 with key[i] non-zero (the scan runs through all 16
keys and the last hit wins). -/
theorem wait_for_key_takes_highest (r : Nat) (s : Chip8) (X : Nat) (hX : X < 16)
    (hi : instrAt s 0xF X 0 0xA) (hk : ∃ i, i < 16 ∧ s.key i ≠ 0) :
    ∃ t i, Cycle r s = .ok t ∧ t.PC = s.PC + 2 ∧ i < 16 ∧ s.key i ≠ 0 ∧
      (∀ j, i < j → j < 16 → s.key j = 0) ∧ t.registers X = i := by
  cases hl : lastKey s.key 16 with
  | none =>
    obtain ⟨i, hi16, hki⟩ := hk
    exact absurd (lastKey_none s.key 16 hl i hi16) hki
  | some i =>
    obtain ⟨h1, h2, h3⟩ := lastKey_spec s.key 16 i hl
    refine ⟨_, i, Cycle_waitKey r s hX hi hl, ?_, h1, h2, h3, ?_⟩
    · rw [(timers_fields _).1]
      have := hi.1
      simp only [incPC, setReg]
      omega
    · rw [(timers_fields _).2.1]
      simp [incPC, setReg, upd]

/-- The amended C4 on F00A with keys 1 and 2 held down. -/
theorem wait_for_key_takes_highest_witness :
    instrAt keyFixture 0xF 0 0 0xA ∧ (∃ i, i < 16 ∧ keyFixture.key i ≠ 0) ∧
    ∃ t i, Cycle 0 keyFixture = .ok t ∧ t.PC = keyFixture.PC + 2 ∧ i < 16 ∧
      keyFixture.key i ≠ 0 ∧ (∀ j, i < j → j < 16 → keyFixture.key j = 0) ∧
      t.registers 0 = i :=
  ⟨⟨by decide, rfl, rfl⟩, ⟨1, by decide, by decide⟩,
    wait_for_key_takes_highest 0 keyFixture 0 (by decide) ⟨by decide, rfl, rfl⟩
      ⟨1, by decide, by decide⟩⟩

/-! ## Opcodes that no case of an inner switch matches -/

theorem execute_8 (r : Nat) (s : Chip8) {x y n : Nat} (hx : x < 16) (hy : y < 16) (hn : n < 16)
    (hop : s.currentOpcode = word 8 x y n) : execute r s = .ok (exec8 s, false) := by
  have ht := word_top (h := 8) (by decide) hx hy hn
  unfold execute
  simp [hop, ht]

theorem execute_E (r : Nat) (s : Chip8) {x y n : Nat} (hx : x < 16) (hy : y < 16) (hn : n < 16)
    (hop : s.currentOpcode = word 0xE x y n) : execute r s = through (execE s) := by
  have ht := word_top (h := 0xE) (by decide) hx hy hn
  unfold execute
  simp [hop, ht]

/-- The step on an opcode listed in unmapped: only the fetch and the timer code
have an effect. -/
theorem Cycle_unmapped (r : Nat) (s : Chip8) {h x y n : Nat}
    (hx : x < 16) (hy : y < 16) (hn : n < 16) (hu : unmapped h y n)
    (hi : instrAt s h x y n) :
    Cycle r s = .ok (timers { s with currentOpcode := word h x y n }) := by
  have hh : h < 16 := by
    rcases hu with ⟨h8, _⟩ | ⟨hE, _⟩ | ⟨hF, _⟩ <;> omega
  rw [Cycle_instrAt r hi hh hx hy hn]
  rcases hu with ⟨h8, hlow⟩ | ⟨hE, h1, h2⟩ | ⟨hF, h1, h2, h3, h4, h5, h6, h7, h8, h9⟩
  · subst h8
    rw [execute_8 r _ hx hy hn rfl]
    have hl := word_low (h := 8) (x := x) (y := y) (n := n) hn
    have : exec8 { s with currentOpcode := word 8 x y n } =
        { s with currentOpcode := word 8 x y n } := by
      unfold exec8
      simp only [hl]
      rcases hlow with h | h | h | h | h | h | h <;> subst h <;> simp
    rw [this, finish_ok_false]
  · subst hE
    rw [execute_E r _ hx hy hn rfl]
    have hb := word_byte (h := 0xE) (x := x) (y := y) (n := n) hy hn
    unfold execE through
    simp [hb, h1, h2]
  · subst hF
    rw [execute_F r _ hx hy hn rfl]
    have hb := word_byte (h := 0xF) (x := x) (y := y) (n := n) hy hn
    unfold execF
    simp [hb, h1, h2, h3, h4, h5, h6, h7, h8, h9]

/-- C6 fails as stated.  On the unmapped opcode 8008 at PC = 0x200 the step
leaves PC at 0x200, not at 0x202. -/
theorem unmapped_opcode_does_not_advance :
    instrAt unknownFixture 8 0 0 8 ∧ unmapped 8 0 8 ∧
    ∃ t, Cycle 0 unknownFixture = .ok t ∧ t.PC = 0x200 ∧ t.PC ≠ unknownFixture.PC + 2 :=
  ⟨⟨by decide, rfl, rfl⟩, Or.inl ⟨rfl, Or.inl rfl⟩, _, rfl, rfl, by decide⟩

/-- C6 as amended.  When the opcode at PC has top nibble 8, E or F and low bits
that match no case of the inner switch (8XYn with n in 8, 9, A, B, C, D, F;
EXnn with nn not 9E or A1; FXnn with nn not 07, 0A, 15, 18, 1E, 29, 33, 55 or
65), one step leaves PC where it was, and leaves registers, I, memory, stack,
stack pointer, framebuffer and key state unchanged. -/
theorem unmapped_opcode_keeps_state (r : Nat) (s : Chip8) (h X y n : Nat)
    (hX : X < 16) (hy : y < 16) (hn : n < 16) (hu : unmapped h y n)
    (hi : instrAt s h X y n) :
    ∃ t, Cycle r s = .ok t ∧ t.PC = s.PC ∧ t.registers = s.registers ∧ t.I = s.I ∧
      t.memory = s.memory ∧ t.stack = s.stack ∧ t.SP = s.SP ∧ t.display = s.display ∧
      t.key = s.key := by
  obtain ⟨f1, f2, f3, f4, f5, f6, f7, f8, _, _⟩ :=
    timers_fields { s with currentOpcode := word h X y n }
  exact ⟨_, Cycle_unmapped r s hX hy hn hu hi, f1, f2, f3, f4, f5, f6, f7, f8⟩

/-- The amended C6 on the opcode 8008. -/
theorem unmapped_opcode_keeps_state_witness :
    instrAt unknownFixture 8 0 0 8 ∧ unmapped 8 0 8 ∧
    ∃ t, Cycle 0 unknownFixture = .ok t ∧ t.PC = unknownFixture.PC ∧
      t.registers = unknownFixture.registers ∧ t.I = unknownFixture.I ∧
      t.memory = unknownFixture.memory ∧ t.stack = unknownFixture.stack ∧
      t.SP = unknownFixture.SP ∧ t.display = unknownFixture.display ∧
      t.key = unknownFixture.key :=
  ⟨⟨by decide, rfl, rfl⟩, Or.inl ⟨rfl, Or.inl rfl⟩,
    unmapped_opcode_keeps_state 0 unknownFixture 8 0 0 8 (by decide) (by decide) (by decide)
      (Or.inl ⟨rfl, Or.inl rfl⟩) ⟨by decide, rfl, rfl⟩⟩

/-! ## 2NNN and 00EE -/

theorem execute_2 (r : Nat) (s : Chip8) {x y n : Nat} (hx : x < 16) (hy : y < 16) (hn : n < 16)
    (hop : s.currentOpcode = word 2 x y n) : execute r s = through (call s) := by
  have ht := word_top (h := 2) (by decide) hx hy hn
  unfold execute
  simp [hop, ht]

theorem execute_0 (r : Nat) (s : Chip8) {x y n : Nat} (hx : x < 16) (hy : y < 16) (hn : n < 16)
    (hop : s.currentOpcode = word 0 x y n) : execute r s = through (exec0 s) := by
  have ht := word_top (h := 0) (by decide) hx hy hn
  unfold execute
  simp [hop, ht]

/-- The step on 2NNN with a free stack slot: PC is pushed at stack[SP]. -/
theorem Cycle_call (r : Nat) (s : Chip8) {x y n : Nat} (hx : x < 16) (hy : y < 16)
    (hn : n < 16) (hi : instrAt s 2 x y n) (hsp : s.SP < 24) :
    ∃ t, Cycle r s = .ok t ∧ t.PC = 256 * x + 16 * y + n ∧ t.SP = s.SP + 1 ∧
      t.stack = upd s.stack s.SP s.PC := by
  have ha := word_addr (h := 2) hx hy hn
  have hm : (256 * x + 16 * y + n) % 65536 = 256 * x + 16 * y + n := by omega
  have hs : (s.SP + 1) % 65536 = s.SP + 1 := by omega
  refine ⟨timers { s with
    currentOpcode := word 2 x y n, stack := upd s.stack s.SP s.PC, SP := s.SP + 1,
    PC := 256 * x + 16 * y + n }, ?_, ?_, ?_, ?_⟩
  · rw [Cycle_instrAt r hi (by decide) hx hy hn, execute_2 r _ hx hy hn rfl]
    unfold call writeStack
    simp [hsp, ha, hm, hs, finish_through_ok]
  · rw [(timers_fields _).1]
  · rw [(timers_fields _).2.2.2.2.2.1]
  · rw [(timers_fields _).2.2.2.2.1]

theorem exec0_return (s : Chip8) (hb : s.currentOpcode &&& 0x00FF = 0x00EE)
    (h0 : 0 < s.SP) (h24 : s.SP ≤ 24) :
    exec0 s = .ok { s with SP := s.SP - 1, PC := (s.stack (s.SP - 1) + 2) % 65536 } := by
  have hne : ¬ (s.SP = 0) := by omega
  have hlt : s.SP - 1 < 24 := by omega
  unfold exec0
  simp only [hb]
  simp [readStack, incPC, hne, hlt]

/-- The step on 00EE with a non-empty stack: PC is popped from stack[SP - 1]. -/
theorem Cycle_return (r : Nat) (s : Chip8) (hi : instrAt s 0 0 0xE 0xE)
    (h0 : 0 < s.SP) (h24 : s.SP ≤ 24) :
    ∃ t, Cycle r s = .ok t ∧ t.PC = (s.stack (s.SP - 1) + 2) % 65536 ∧ t.SP = s.SP - 1 ∧
      t.stack = s.stack := by
  have hb := word_byte (h := 0) (x := 0) (y := 0xE) (n := 0xE) (by decide) (by decide)
  refine ⟨timers { s with
    currentOpcode := word 0 0 0xE 0xE, SP := s.SP - 1,
    PC := (s.stack (s.SP - 1) + 2) % 65536 }, ?_, ?_, ?_, ?_⟩
  · rw [Cycle_instrAt r hi (by decide) (by decide) (by decide) (by decide),
      execute_0 r _ (by decide) (by decide) (by decide) rfl,
      exec0_return { s with currentOpcode := word 0 0 0xE 0xE } hb h0 h24, finish_through_ok]
  · rw [(timers_fields _).1]
  · rw [(timers_fields _).2.2.2.2.2.1]
  · rw [(timers_fields _).2.2.2.2.1]

/-- C9.  Start with stack depth d <= 22 and 2NNN at address A: the step pushes
A and jumps to NNN.  Any later machine with the same stack and stack pointer
that executes a nested 2MMM at address B pushes B and jumps to MMM.  From any
later machine with that stack and stack pointer the first 00EE sets PC to
B + 2, and from any later machine with the resulting stack and stack pointer the
second 00EE sets PC to A + 2 and the stack pointer to d.  The entries below
index d keep their values throughout. -/
theorem nested_calls_return_in_order
    (r0 r1 r2 r3 d A B x y n x2 y2 n2 : Nat) (s0 : Chip8)
    (hd : d ≤ 22) (hsp : s0.SP = d) (hA : s0.PC = A)
    (hx : x < 16) (hy : y < 16) (hn : n < 16)
    (hx2 : x2 < 16) (hy2 : y2 < 16) (hn2 : n2 < 16)
    (hi0 : instrAt s0 2 x y n) :
    ∃ s1, Cycle r0 s0 = .ok s1 ∧ s1.PC = 256 * x + 16 * y + n ∧ s1.SP = d + 1 ∧
      s1.stack d = A ∧ (∀ i, i < d → s1.stack i = s0.stack i) ∧
      ∀ s2 : Chip8, s2.stack = s1.stack → s2.SP = s1.SP → s2.PC = B →
        instrAt s2 2 x2 y2 n2 →
        ∃ s3, Cycle r1 s2 = .ok s3 ∧ s3.PC = 256 * x2 + 16 * y2 + n2 ∧ s3.SP = d + 2 ∧
          s3.stack (d + 1) = B ∧ (∀ i, i < d → s3.stack i = s0.stack i) ∧
          ∀ s4 : Chip8, s4.stack = s3.stack → s4.SP = s3.SP → instrAt s4 0 0 0xE 0xE →
            ∃ s5, Cycle r2 s4 = .ok s5 ∧ s5.PC = B + 2 ∧ s5.SP = d + 1 ∧
              (∀ i, i < d → s5.stack i = s0.stack i) ∧
              ∀ s6 : Chip8, s6.stack = s5.stack → s6.SP = s5.SP →
                instrAt s6 0 0 0xE 0xE →
                ∃ s7, Cycle r3 s6 = .ok s7 ∧ s7.PC = A + 2 ∧ s7.SP = d ∧
                  (∀ i, i < d → s7.stack i = s0.stack i) := by
  obtain ⟨s1, c1, p1, q1, k1⟩ := Cycle_call r0 s0 hx hy hn hi0 (by omega)
  have hA4 : A + 1 < 4096 := hA ▸ hi0.1
  have e1d : s1.stack d = A := by rw [k1, hsp, hA]; simp [upd]
  have e1lo : ∀ i, i < d → s1.stack i = s0.stack i := by
    intro i hi; rw [k1, hsp]; simp [upd, Nat.ne_of_lt hi]
  refine ⟨s1, c1, p1, by omega, e1d, e1lo, ?_⟩
  intro s2 hst2 hsp2 hB hi2
  obtain ⟨s3, c3, p3, q3, k3⟩ := Cycle_call r1 s2 hx2 hy2 hn2 hi2 (by omega)
  have hB4 : B + 1 < 4096 := hB ▸ hi2.1
  have sp2 : s2.SP = d + 1 := by omega
  have e3d1 : s3.stack (d + 1) = B := by rw [k3, sp2, hB]; simp [upd]
  have e3d : s3.stack d = A := by rw [k3, sp2, hst2]; simp [upd, e1d]
  have e3lo : ∀ i, i < d → s3.stack i = s0.stack i := by
    intro i hi
    have : i ≠ d + 1 := by omega
    rw [k3, sp2, hst2]; simp [upd, this, e1lo i hi]
  refine ⟨s3, c3, p3, by omega, e3d1, e3lo, ?_⟩
  intro s4 hst4 hsp4 hi4
  have sp4 : s4.SP = d + 2 := by omega
  obtain ⟨s5, c5, p5, q5, k5⟩ := Cycle_return r2 s4 hi4 (by omega) (by omega)
  have e5pc : s5.PC = B + 2 := by
    rw [p5, sp4, hst4]
    have : d + 2 - 1 = d + 1 := by omega
    rw [this, e3d1]; omega
  refine ⟨s5, c5, e5pc, by omega, ?_, ?_⟩
  · intro i hi; rw [k5, hst4]; exact e3lo i hi
  intro s6 hst6 hsp6 hi6
  have sp6 : s6.SP = d + 1 := by omega
  obtain ⟨s7, c7, p7, q7, k7⟩ := Cycle_return r3 s6 hi6 (by omega) (by omega)
  have e7pc : s7.PC = A + 2 := by
    rw [p7, sp6, hst6, k5, hst4]
    have : d + 1 - 1 = d := by omega
    rw [this, e3d]; omega
  refine ⟨s7, c7, e7pc, by omega, ?_⟩
  intro i hi; rw [k7, hst6, k5, hst4]; exact e3lo i hi

/-- C9 on the program 2204 at 0x200, 2208 at 0x204, 00EE at 0x208 and 00EE at
0x206, each instruction run on a machine that inherits stack and stack pointer
from the step before: the first return lands at 0x206, the second at 0x202. -/
theorem nested_calls_return_in_order_witness :
    instrAt (atAddr 0x200 0x22 0x04) 2 2 0 4 ∧
    ∃ s1 s3 s5 s7 : Chip8,
      Cycle 0 (atAddr 0x200 0x22 0x04) = .ok s1 ∧ s1.PC = 0x204 ∧
      Cycle 0 { atAddr 0x204 0x22 0x08 with stack := s1.stack, SP := s1.SP } = .ok s3 ∧
      s3.PC = 0x208 ∧
      Cycle 0 { atAddr 0x208 0x00 0xEE with stack := s3.stack, SP := s3.SP } = .ok s5 ∧
      s5.PC = 0x206 ∧
      Cycle 0 { atAddr 0x206 0x00 0xEE with stack := s5.stack, SP := s5.SP } = .ok s7 ∧
      s7.PC = 0x202 ∧ s7.SP = 0 := by
  refine ⟨⟨by decide, rfl, rfl⟩, ?_⟩
  obtain ⟨s1, c1, p1, _, _, _, k1⟩ :=
    nested_calls_return_in_order 0 0 0 0 0 0x200 0x204 2 0 4 2 0 8 (atAddr 0x200 0x22 0x04)
      (by decide) rfl rfl (by decide) (by decide) (by decide) (by decide) (by decide)
      (by decide) ⟨by decide, rfl, rfl⟩
  obtain ⟨s3, c3, p3, _, _, _, k3⟩ :=
    k1 { atAddr 0x204 0x22 0x08 with stack := s1.stack, SP := s1.SP } rfl rfl rfl
      ⟨(by decide : 0x204 + 1 < 4096), rfl, rfl⟩
  obtain ⟨s5, c5, p5, _, _, k5⟩ :=
    k3 { atAddr 0x208 0x00 0xEE with stack := s3.stack, SP := s3.SP } rfl rfl
      ⟨(by decide : 0x208 + 1 < 4096), rfl, rfl⟩
  obtain ⟨s7, c7, p7, q7, _⟩ :=
    k5 { atAddr 0x206 0x00 0xEE with stack := s5.stack, SP := s5.SP } rfl rfl
      ⟨(by decide : 0x206 + 1 < 4096), rfl, rfl⟩
  exact ⟨s1, s3, s5, s7, c1, p1, c3, p3, c5, p5, c7, p7, q7⟩

/-! ## FX55 and FX65 -/

/-- The FX55 loop after n passes, when the n bytes from I on lie inside memory. -/
theorem storeLoop (s : Chip8) : ∀ n, s.I + n ≤ 4096 →
    forLoopM storeReg n s = .ok { s with
      memory := fun j => if s.I ≤ j ∧ j < s.I + n then s.registers (j - s.I) else s.memory j,
      I := s.I + n }
  | 0, _ => by
    have hm : (fun j => if s.I ≤ j ∧ j < s.I + 0 then s.registers (j - s.I) else s.memory j) =
        s.memory := by
      funext j
      have : ¬ (s.I ≤ j ∧ j < s.I + 0) := by omega
      rw [if_neg this]
    rw [hm]
    rfl
  | n + 1, h => by
    have ih := storeLoop s n (by omega)
    have hlt : s.I + n < 4096 := by omega
    have hI : (s.I + n + 1) % 65536 = s.I + (n + 1) := by omega
    simp only [forLoopM, ih, storeReg, writeMem, hlt, if_true, hI]
    congr 2
    funext j
    simp only [upd]
    by_cases hj : j = s.I + n
    · have h1 : s.I ≤ j ∧ j < s.I + (n + 1) := by omega
      have h2 : j - s.I = n := by omega
      rw [if_pos hj, if_pos h1, h2]
    · rw [if_neg hj]
      by_cases h1 : s.I ≤ j ∧ j < s.I + n
      · have h2 : s.I ≤ j ∧ j < s.I + (n + 1) := by omega
        rw [if_pos h1, if_pos h2]
      · have h2 : ¬ (s.I ≤ j ∧ j < s.I + (n + 1)) := by omega
        rw [if_neg h1, if_neg h2]

/-- The FX65 loop after n passes, when the n bytes from I on lie inside memory. -/
theorem loadLoop (s : Chip8) : ∀ n, s.I + n ≤ 4096 →
    forLoopM loadReg n s = .ok { s with
      registers := fun i => if i < n then s.memory (s.I + i) else s.registers i,
      I := s.I + n }
  | 0, _ => by
    have hm : (fun i => if i < 0 then s.memory (s.I + i) else s.registers i) = s.registers := by
      funext i
      rw [if_neg (Nat.not_lt_zero i)]
    rw [hm]
    rfl
  | n + 1, h => by
    have ih := loadLoop s n (by omega)
    have hlt : s.I + n < 4096 := by omega
    have hI : (s.I + n + 1) % 65536 = s.I + (n + 1) := by omega
    simp only [forLoopM, ih, loadReg, readMem, setReg, hlt, if_true, hI]
    congr 2
    funext i
    simp only [upd]
    by_cases hi : i = n
    · subst hi
      rw [if_pos rfl, if_pos (Nat.lt_succ_self i)]
    · rw [if_neg hi]
      by_cases h1 : i < n
      · rw [if_pos h1, if_pos (Nat.lt_succ_of_lt h1)]
      · have h2 : ¬ i < n + 1 := by omega
        rw [if_neg h1, if_neg h2]

/-- The step on FX55 when the X + 1 bytes from I on lie inside memory. -/
theorem Cycle_store (r : Nat) (s : Chip8) {x : Nat} (hx : x < 16)
    (hi : instrAt s 0xF x 5 5) (hI : s.I + (x + 1) ≤ 4096) :
    ∃ t, Cycle r s = .ok t ∧ t.I = s.I + (x + 1) ∧
      t.memory = (fun j => if s.I ≤ j ∧ j < s.I + (x + 1) then s.registers (j - s.I)
        else s.memory j) := by
  have hb := word_byte (h := 0xF) (x := x) (y := 5) (n := 5) (by decide) (by decide)
  have hr := word_reg (h := 0xF) (x := x) (y := 5) (n := 5) hx (by decide) (by decide)
  have hl := storeLoop { s with currentOpcode := word 0xF x 5 5 } (x + 1) hI
  have hc : Cycle r s = .ok (timers (incPC { s with
      currentOpcode := word 0xF x 5 5,
      memory := fun j => if s.I ≤ j ∧ j < s.I + (x + 1) then s.registers (j - s.I)
        else s.memory j,
      I := s.I + (x + 1) })) := by
    rw [Cycle_instrAt r hi (by decide) hx (by decide) (by decide),
      execute_F r _ hx (by decide) (by decide) rfl]
    unfold execF
    simp only [hb, hr, hl]
    simp only [Nat.reduceMul, Nat.reduceAdd, Nat.reduceEqDiff, if_false, if_true,
      finish_ok_false]
  refine ⟨_, hc, ?_, ?_⟩
  · rw [(timers_fields _).2.2.1]; rfl
  · rw [(timers_fields _).2.2.2.1]; rfl

/-- The step on FX65 when the X + 1 bytes from I on lie inside memory. -/
theorem Cycle_load (r : Nat) (s : Chip8) {x : Nat} (hx : x < 16)
    (hi : instrAt s 0xF x 6 5) (hI : s.I + (x + 1) ≤ 4096) :
    ∃ t, Cycle r s = .ok t ∧ t.I = s.I + (x + 1) ∧
      t.registers = (fun i => if i < x + 1 then s.memory (s.I + i) else s.registers i) := by
  have hb := word_byte (h := 0xF) (x := x) (y := 6) (n := 5) (by decide) (by decide)
  have hr := word_reg (h := 0xF) (x := x) (y := 6) (n := 5) hx (by decide) (by decide)
  have hl := loadLoop { s with currentOpcode := word 0xF x 6 5 } (x + 1) hI
  have hc : Cycle r s = .ok (timers (incPC { s with
      currentOpcode := word 0xF x 6 5,
      registers := fun i => if i < x + 1 then s.memory (s.I + i) else s.registers i,
      I := s.I + (x + 1) })) := by
    rw [Cycle_instrAt r hi (by decide) hx (by decide) (by decide),
      execute_F r _ hx (by decide) (by decide) rfl]
    unfold execF
    simp only [hb, hr, hl]
    simp only [Nat.reduceMul, Nat.reduceAdd, Nat.reduceEqDiff, if_false, if_true,
      finish_ok_false]
  refine ⟨_, hc, ?_, ?_⟩
  · rw [(timers_fields _).2.2.1]; rfl
  · rw [(timers_fields _).2.1]; rfl

/-- C8.  With I = a and a + X + 1 <= 4096, the step on FX55 sets
memory[a + i] = reg[i] for every i <= X, leaves every other memory byte
unchanged and leaves I = a + X + 1.  From any machine u with that memory and
I = a (its registers arbitrary) the step on FX65 gives reg[i] its value from
before the store for every i <= X, leaves the registers above X as they are in
u, and leaves I = a + X + 1. -/
theorem store_then_load_roundtrip (r1 r2 : Nat) (s : Chip8) (X a : Nat)
    (hX : X < 16) (hI : s.I = a) (ha : a + X + 1 ≤ 4096) (hi : instrAt s 0xF X 5 5) :
    ∃ t, Cycle r1 s = .ok t ∧
      (∀ i, i ≤ X → t.memory (a + i) = s.registers i) ∧
      (∀ j, (j < a ∨ a + X < j) → t.memory j = s.memory j) ∧
      t.I = a + X + 1 ∧
      ∀ u : Chip8, u.memory = t.memory → u.I = a → instrAt u 0xF X 6 5 →
        ∃ v, Cycle r2 u = .ok v ∧
          (∀ i, i ≤ X → v.registers i = s.registers i) ∧
          (∀ j, X < j → v.registers j = u.registers j) ∧
          v.I = a + X + 1 := by
  subst hI
  obtain ⟨t, ct, tI, tm⟩ := Cycle_store r1 s hX hi (by omega)
  have hst : ∀ i, i ≤ X → t.memory (s.I + i) = s.registers i := by
    intro i hiX
    have h1 : s.I ≤ s.I + i ∧ s.I + i < s.I + (X + 1) := by omega
    have h2 : s.I + i - s.I = i := by omega
    rw [tm]
    simp only [h1, and_self, if_true, h2]
  refine ⟨t, ct, hst, ?_, by omega, ?_⟩
  · intro j hj
    have h1 : ¬ (s.I ≤ j ∧ j < s.I + (X + 1)) := by omega
    rw [tm]
    simp only [h1, if_false]
  · intro u um uI ui
    obtain ⟨v, cv, vI, vr⟩ := Cycle_load r2 u hX ui (by omega)
    refine ⟨v, cv, ?_, ?_, by omega⟩
    · intro i hiX
      have h1 : i < X + 1 := by omega
      rw [vr]
      simp only [h1, if_true]
      rw [um, uI]
      exact hst i hiX
    · intro j hj
      have h1 : ¬ j < X + 1 := by omega
      rw [vr]
      simp only [h1, if_false]

/-- C8 on F155 with I = 0x300, V0 = 7 and V1 = 9, followed by F165 on a machine
with the resulting memory, I = 0x300 and all registers 0. -/
theorem store_then_load_roundtrip_witness :
    storeFixture.I = 0x300 ∧ 0x300 + 1 + 1 ≤ 4096 ∧ instrAt storeFixture 0xF 1 5 5 ∧
    ∃ t v : Chip8, Cycle 0 storeFixture = .ok t ∧ t.memory 0x300 = 7 ∧ t.memory 0x301 = 9 ∧
      Cycle 0 { blank with memory := t.memory, PC := 0x202, I := 0x300 } = .ok v ∧
      v.registers 0 = 7 ∧ v.registers 1 = 9 ∧ v.I = 0x302 := by
  refine ⟨rfl, by decide, ⟨by decide, rfl, rfl⟩, ?_⟩
  obtain ⟨t, ct, tm, tk, _, k⟩ :=
    store_then_load_roundtrip 0 0 storeFixture 1 0x300 (by decide) rfl (by decide)
      ⟨by decide, rfl, rfl⟩
  have m2 : t.memory 0x202 = 0xF1 := tk 0x202 (Or.inl (by decide))
  have m3 : t.memory 0x203 = 0x65 := tk 0x203 (Or.inl (by decide))
  obtain ⟨v, cv, vr, _, vI⟩ :=
    k { blank with memory := t.memory, PC := 0x202, I := 0x300 } rfl rfl
      ⟨(by decide : 0x202 + 1 < 4096), m2, m3⟩
  exact ⟨t, v, ct, tm 0 (by decide), tm 1 (by decide), cv, vr 0 (by decide),
    vr 1 (by decide), vI⟩

/-! ## DXYN: the loops -/

@[simp]
theorem upd_upd (a : Nat → Nat) (i v w : Nat) : upd (upd a i v) i w = upd a i w := by
  funext j
  simp only [upd]
  split <;> rfl

theorem cellIdx_row (vx vy y x : Nat) (hx : x < 8) :
    cellIdx vx vy (8 * y + x) = vx + x + (vy + y) * 64 := by
  have h1 : (8 * y + x) % 8 = x := by omega
  have h2 : (8 * y + x) / 8 = y := by omega
  unfold cellIdx
  rw [h1, h2]

theorem cellOn_row (sprite : Nat → Nat) (y x : Nat) (hx : x < 8) :
    cellOn sprite (8 * y + x) = decide (sprite y &&& (0x80 >>> x) ≠ 0) := by
  have h1 : (8 * y + x) % 8 = x := by omega
  have h2 : (8 * y + x) / 8 = y := by omega
  unfold cellOn
  rw [h1, h2]

/-- One pass of the inner loop takes the machine from q = 8y + x visited cells
to q + 1, provided the registers holding the position are not VF and the
framebuffer index of the cell is in range. -/
theorem drawPixel_drawn (s : Chip8) (X Y y x : Nat) (hX : X ≠ 15) (hY : Y ≠ 15) (hx : x < 8)
    (hb : s.registers X + x + (s.registers Y + y) * 64 < 2048) :
    drawPixel X Y (s.memory (s.I + y)) y x (drawn s (s.registers X) (s.registers Y) (8 * y + x)) =
      .ok (drawn s (s.registers X) (s.registers Y) (8 * y + x + 1)) := by
  have hci := cellIdx_row (s.registers X) (s.registers Y) y x hx
  have hco := cellOn_row (fun row => s.memory (s.I + row)) y x hx
  have hrX : ∀ v, upd s.registers 15 v X = s.registers X := fun v => by simp [upd, hX]
  have hrY : ∀ v, upd s.registers 15 v Y = s.registers Y := fun v => by simp [upd, hY]
  by_cases hon : s.memory (s.I + y) &&& (0x80 >>> x) ≠ 0
  · have hco1 : cellOn (fun row => s.memory (s.I + row)) (8 * y + x) = true := by
      rw [hco]; exact decide_eq_true hon
    by_cases hd : dispAfter (fun row => s.memory (s.I + row)) (s.registers X) (s.registers Y)
        s.display (8 * y + x) (s.registers X + x + (s.registers Y + y) * 64) = 1
    · simp [drawPixel, drawn, readDisplay, writeDisplay, setReg, dispAfter, flagAfter,
        hon, hco1, hci, hrX, hrY, hb, hd]
    · simp [drawPixel, drawn, readDisplay, writeDisplay, setReg, dispAfter, flagAfter,
        hon, hco1, hci, hrX, hrY, hb, hd]
  · have hco0 : cellOn (fun row => s.memory (s.I + row)) (8 * y + x) = false := by
      rw [hco]; exact decide_eq_false hon
    simp [drawPixel, drawn, dispAfter, flagAfter, hon, hco0]

/-- The inner loop of DXYN on row y. -/
theorem drawCols_drawn (s : Chip8) (X Y y : Nat) (hX : X ≠ 15) (hY : Y ≠ 15)
    (hb : s.registers X + 7 + (s.registers Y + y) * 64 < 2048) : ∀ k, k ≤ 8 →
    forLoopM (drawPixel X Y (s.memory (s.I + y)) y) k
        (drawn s (s.registers X) (s.registers Y) (8 * y)) =
      .ok (drawn s (s.registers X) (s.registers Y) (8 * y + k))
  | 0, _ => rfl
  | k + 1, h => by
    have ih := drawCols_drawn s X Y y hX hY hb k (by omega)
    simp only [forLoopM, ih]
    exact drawPixel_drawn s X Y y k hX hY (by omega) (by omega)

/-- One pass of the outer loop of DXYN. -/
theorem drawRow_drawn (s : Chip8) (X Y y : Nat) (hX : X ≠ 15) (hY : Y ≠ 15)
    (hb : s.registers X + 7 + (s.registers Y + y) * 64 < 2048) (hI : s.I + y < 4096) :
    drawRow X Y y (drawn s (s.registers X) (s.registers Y) (8 * y)) =
      .ok (drawn s (s.registers X) (s.registers Y) (8 * (y + 1))) := by
  have hl := drawCols_drawn s X Y y hX hY hb 8 (Nat.le_refl 8)
  have hm : (drawn s (s.registers X) (s.registers Y) (8 * y)).memory = s.memory := rfl
  have hi : (drawn s (s.registers X) (s.registers Y) (8 * y)).I = s.I := rfl
  unfold drawRow readMem
  rw [hm, hi, if_pos hI]
  exact hl

/-- The outer loop of DXYN. -/
theorem drawRows_drawn (s : Chip8) (X Y N : Nat) (hX : X ≠ 15) (hY : Y ≠ 15)
    (hvx : s.registers X + 7 ≤ 63) (hvy : s.registers Y + N ≤ 32) (hI : s.I + N ≤ 4096) :
    ∀ n, n ≤ N →
    forLoopM (drawRow X Y) n (drawn s (s.registers X) (s.registers Y) 0) =
      .ok (drawn s (s.registers X) (s.registers Y) (8 * n))
  | 0, _ => rfl
  | n + 1, h => by
    have ih := drawRows_drawn s X Y N hX hY hvx hvy hI n (by omega)
    simp only [forLoopM, ih]
    exact drawRow_drawn s X Y n hX hY (by omega) (by omega)

/-! ## DXYN: what the visited cells look like -/

theorem cellIdx_inj {vx vy q q2 : Nat} (h : cellIdx vx vy q = cellIdx vx vy q2) : q = q2 := by
  unfold cellIdx at h
  omega

/-- A framebuffer index that is not the index of a visited cell keeps its value. -/
theorem dispAfter_other (sprite : Nat → Nat) (vx vy : Nat) (d0 : Nat → Nat) (i : Nat) :
    ∀ Q, (∀ q, q < Q → cellIdx vx vy q ≠ i) → dispAfter sprite vx vy d0 Q i = d0 i
  | 0, _ => rfl
  | Q + 1, h => by
    have ih := dispAfter_other sprite vx vy d0 i Q (fun q hq => h q (by omega))
    have hne : ¬ (i = cellIdx vx vy Q) := fun e => h Q (Nat.lt_succ_self Q) e.symm
    unfold dispAfter
    by_cases hon : cellOn sprite Q = true
    · rw [if_pos hon]
      simp only [upd, hne, if_false]
      exact ih
    · rw [if_neg hon]
      exact ih

/-- A visited cell is flipped exactly when its sprite bit is set. -/
theorem dispAfter_cell (sprite : Nat → Nat) (vx vy : Nat) (d0 : Nat → Nat) : ∀ Q q, q < Q →
    dispAfter sprite vx vy d0 Q (cellIdx vx vy q) =
      d0 (cellIdx vx vy q) ^^^ (if cellOn sprite q = true then 1 else 0)
  | 0, q, h => absurd h (Nat.not_lt_zero q)
  | Q + 1, q, h => by
    unfold dispAfter
    by_cases hq : q = Q
    · subst hq
      have hfresh := dispAfter_other sprite vx vy d0 (cellIdx vx vy q) q
        (fun p hp e => absurd (cellIdx_inj e) (by omega))
      by_cases hon : cellOn sprite q = true
      · simp only [hon, if_true, upd, hfresh]
      · simp only [hon, if_false, hfresh, Nat.xor_zero, Bool.false_eq_true]
    · have ih := dispAfter_cell sprite vx vy d0 Q q (by omega)
      have hne : ¬ (cellIdx vx vy q = cellIdx vx vy Q) := fun e => hq (cellIdx_inj e)
      by_cases hon : cellOn sprite Q = true
      · rw [if_pos hon]
        simp only [upd, hne, if_false]
        exact ih
      · rw [if_neg hon]
        exact ih

theorem flagAfter_bit (sprite : Nat → Nat) (vx vy : Nat) (d0 : Nat → Nat) :
    ∀ Q, flagAfter sprite vx vy d0 Q = 0 ∨ flagAfter sprite vx vy d0 Q = 1
  | 0 => Or.inl rfl
  | Q + 1 => by
    unfold flagAfter
    split
    · exact Or.inr rfl
    · exact flagAfter_bit sprite vx vy d0 Q

/-- VF is 1 exactly when a visited cell had its sprite bit set on a pixel that
was 1 before the draw. -/
theorem flagAfter_one_iff (sprite : Nat → Nat) (vx vy : Nat) (d0 : Nat → Nat) : ∀ Q,
    (flagAfter sprite vx vy d0 Q = 1 ↔
      ∃ q, q < Q ∧ cellOn sprite q = true ∧ d0 (cellIdx vx vy q) = 1)
  | 0 => by
    constructor
    · intro h; cases h
    · rintro ⟨q, hq, _⟩; exact absurd hq (Nat.not_lt_zero q)
  | Q + 1 => by
    have ih := flagAfter_one_iff sprite vx vy d0 Q
    have hfresh := dispAfter_other sprite vx vy d0 (cellIdx vx vy Q) Q
      (fun p hp e => absurd (cellIdx_inj e) (by omega))
    unfold flagAfter
    rw [hfresh]
    by_cases hc : cellOn sprite Q = true ∧ d0 (cellIdx vx vy Q) = 1
    · rw [if_pos hc]
      exact ⟨fun _ => ⟨Q, Nat.lt_succ_self Q, hc.1, hc.2⟩, fun _ => rfl⟩
    · rw [if_neg hc, ih]
      constructor
      · rintro ⟨q, hq, h1, h2⟩
        exact ⟨q, Nat.lt_succ_of_lt hq, h1, h2⟩
      · rintro ⟨q, hq, h1, h2⟩
        by_cases hqQ : q = Q
        · subst hqQ; exact absurd ⟨h1, h2⟩ hc
        · exact ⟨q, by omega, h1, h2⟩

theorem and_two_pow_ne_zero (m k : Nat) : m &&& 2 ^ k ≠ 0 ↔ (m >>> k) % 2 = 1 := by
  rw [Nat.and_two_pow, Nat.toNat_testBit, Nat.shiftRight_eq_div_pow]
  have hpos : 0 < 2 ^ k := Nat.two_pow_pos k
  have hlt : m / 2 ^ k % 2 < 2 := Nat.mod_lt _ (by decide)
  constructor
  · intro h
    by_cases h0 : m / 2 ^ k % 2 = 0
    · rw [h0, Nat.zero_mul] at h; exact absurd rfl h
    · omega
  · intro h
    rw [h, Nat.one_mul]
    exact Nat.ne_of_gt hpos

/-- The test of DXYN on column col reads bit 7 - col of the sprite byte. -/
theorem cellOn_iff_bit (sprite : Nat → Nat) (row col : Nat) (hcol : col < 8) :
    cellOn sprite (8 * row + col) = true ↔ (sprite row >>> (7 - col)) % 2 = 1 := by
  have hs : 0x80 >>> col = 2 ^ (7 - col) := by
    interval_cases col <;> rfl
  rw [cellOn_row sprite row col hcol, decide_eq_true_eq, hs]
  exact and_two_pow_ne_zero _ _

/-- Flipping by the sprite bit, in the words of the test of DXYN. -/
theorem xor_spriteBit (s : Chip8) (d row col : Nat) (hcol : col < 8) :
    d ^^^ (if cellOn (fun r => s.memory (s.I + r)) (8 * row + col) = true then 1 else 0) =
      d ^^^ spriteBit s row col := by
  have hiff := cellOn_iff_bit (fun r => s.memory (s.I + r)) row col hcol
  unfold spriteBit
  by_cases hon : cellOn (fun r => s.memory (s.I + r)) (8 * row + col) = true
  · rw [if_pos hon, hiff.mp hon]
  · have h0 : (s.memory (s.I + row) >>> (7 - col)) % 2 = 0 := by
      have hlt : (s.memory (s.I + row) >>> (7 - col)) % 2 < 2 := Nat.mod_lt _ (by decide)
      have hne : ¬ (s.memory (s.I + row) >>> (7 - col)) % 2 = 1 := fun h => hon (hiff.mpr h)
      omega
    rw [if_neg hon, h0]

/-! ## DXYN: the step -/

theorem execute_D (r : Nat) (s : Chip8) {x y n : Nat} (hx : x < 16) (hy : y < 16) (hn : n < 16)
    (hop : s.currentOpcode = word 0xD x y n) : execute r s = through (execD s) := by
  have ht := word_top (h := 0xD) (by decide) hx hy hn
  unfold execute
  simp [hop, ht]

/-- The step on DXYN when VX and VY are not VF and the sprite lies inside the
framebuffer and inside memory: all 8N cells are visited. -/
theorem Cycle_draw (r : Nat) (s : Chip8) {X Y N : Nat} (hX : X ≤ 14) (hY : Y ≤ 14)
    (hN : N ≤ 15) (hvx : s.registers X + 7 ≤ 63) (hvy : s.registers Y + N ≤ 32)
    (hI : s.I + N ≤ 4096) (hi : instrAt s 0xD X Y N) :
    ∃ t, Cycle r s = .ok t ∧
      t.display = dispAfter (fun row => s.memory (s.I + row)) (s.registers X) (s.registers Y)
        s.display (8 * N) ∧
      t.registers 15 = flagAfter (fun row => s.memory (s.I + row)) (s.registers X)
        (s.registers Y) s.display (8 * N) ∧
      (∀ j, j ≠ 15 → t.registers j = s.registers j) ∧
      t.drawFlag = true ∧ t.PC = s.PC + 2 ∧ t.I = s.I ∧ t.memory = s.memory := by
  have hx : X < 16 := by omega
  have hy : Y < 16 := by omega
  have hn : N < 16 := by omega
  have hr := word_reg (h := 0xD) (x := X) (y := Y) (n := N) hx hy hn
  have hr2 := word_reg2 (h := 0xD) (x := X) (y := Y) (n := N) hy hn
  have hl := word_low (h := 0xD) (x := X) (y := Y) (n := N) hn
  have hmod : N % 256 = N := by omega
  have hloop := drawRows_drawn { s with currentOpcode := word 0xD X Y N } X Y N
    (by omega) (by omega) hvx hvy hI N (Nat.le_refl N)
  have hstart : setReg { s with currentOpcode := word 0xD X Y N } 15 0 =
      drawn { s with currentOpcode := word 0xD X Y N } (s.registers X) (s.registers Y) 0 := rfl
  have hc : Cycle r s = .ok (timers (incPC { drawn { s with currentOpcode := word 0xD X Y N }
      (s.registers X) (s.registers Y) (8 * N) with drawFlag := true })) := by
    rw [Cycle_instrAt r hi (by decide) hx hy hn, execute_D r _ hx hy hn rfl]
    unfold execD
    simp only [hr, hr2, hl, hmod, hstart]
    rw [hloop]
    exact finish_through_ok _
  have hpc : (s.PC + 2) % 65536 = s.PC + 2 := by have := hi.1; omega
  refine ⟨_, hc, ?_, ?_, ?_, ?_, ?_, ?_, ?_⟩
  · rw [(timers_fields _).2.2.2.2.2.2.1]; rfl
  · rw [(timers_fields _).2.1]; simp [incPC, drawn, upd]
  · intro j hj
    rw [(timers_fields _).2.1]; simp [incPC, drawn, upd, hj]
  · rw [(timers_fields _).2.2.2.2.2.2.2.2.1]; rfl
  · rw [(timers_fields _).1]; exact hpc
  · rw [(timers_fields _).2.2.1]; rfl
  · rw [(timers_fields _).2.2.2.1]; rfl

/-! ## The loops of Initialize and LoadProgram in closed form -/

/-- The array after the assignments a[i + off] = f i for i = 0, ..., n - 1. -/
theorem fill_eq (f : Nat → Nat) (off : Nat) (a : Nat → Nat) : ∀ n,
    forLoop (fun i b => upd b (i + off) (f i)) n a =
      fun j => if off ≤ j ∧ j < off + n then f (j - off) else a j
  | 0 => by
    funext j
    have : ¬ (off ≤ j ∧ j < off + 0) := by omega
    rw [if_neg this]
    rfl
  | n + 1 => by
    funext j
    simp only [forLoop, fill_eq f off a n, upd]
    by_cases hj : j = n + off
    · have h1 : off ≤ j ∧ j < off + (n + 1) := by omega
      have h2 : j - off = n := by omega
      rw [if_pos hj, if_pos h1, h2]
    · rw [if_neg hj]
      by_cases h1 : off ≤ j ∧ j < off + n
      · have h2 : off ≤ j ∧ j < off + (n + 1) := by omega
        rw [if_pos h1, if_pos h2]
      · have h2 : ¬ (off ≤ j ∧ j < off + (n + 1)) := by omega
        rw [if_neg h1, if_neg h2]

theorem forLoop_memory (f : Nat → Nat) (off : Nat) (s : Chip8) : ∀ n,
    forLoop (fun i t => { t with memory := upd t.memory (i + off) (f i) }) n s =
      { s with memory := forLoop (fun i b => upd b (i + off) (f i)) n s.memory }
  | 0 => rfl
  | n + 1 => by rw [forLoop, forLoop_memory f off s n]; rfl

/-- The array after the assignments a[i] = f i for i = 0, ..., n - 1. -/
theorem fill0_eq (f : Nat → Nat) (a : Nat → Nat) (n : Nat) :
    forLoop (fun i b => upd b i (f i)) n a = fun j => if j < n then f j else a j := by
  have h := fill_eq f 0 a n
  simp only [Nat.add_zero, Nat.zero_le, true_and, Nat.zero_add, Nat.sub_zero] at h
  exact h

theorem forLoop_memory0 (f : Nat → Nat) (s : Chip8) (n : Nat) :
    forLoop (fun i t => { t with memory := upd t.memory i (f i) }) n s =
      { s with memory := forLoop (fun i b => upd b i (f i)) n s.memory } :=
  forLoop_memory f 0 s n

theorem forLoop_registers (s : Chip8) : ∀ n,
    forLoop (fun i t => setReg t i 0) n s =
      { s with registers := forLoop (fun i b => upd b i 0) n s.registers }
  | 0 => rfl
  | n + 1 => by rw [forLoop, forLoop_registers s n]; rfl

theorem forLoop_display (s : Chip8) : ∀ n,
    forLoop (fun i t => { t with display := upd t.display i 0 }) n s =
      { s with display := forLoop (fun i b => upd b i 0) n s.display }
  | 0 => rfl
  | n + 1 => by rw [forLoop, forLoop_display s n]; rfl

theorem forLoop_stack (s : Chip8) : ∀ n,
    forLoop (fun i t => { t with stack := upd t.stack i 0 }) n s =
      { s with stack := forLoop (fun i b => upd b i 0) n s.stack }
  | 0 => rfl
  | n + 1 => by rw [forLoop, forLoop_stack s n]; rfl

theorem ClearRegisters_eq (s : Chip8) :
    ClearRegisters s = { s with registers := fun j => if j < 16 then 0 else s.registers j } := by
  unfold ClearRegisters
  rw [forLoop_registers, fill0_eq (fun _ => 0)]

theorem ClearMemory_eq (s : Chip8) :
    ClearMemory s = { s with memory := fun j => if j < 4096 then 0 else s.memory j } := by
  unfold ClearMemory
  rw [forLoop_memory0 (fun _ => 0), fill0_eq (fun _ => 0)]

theorem ClearDisplay_eq (s : Chip8) :
    ClearDisplay s =
      { s with display := fun j => if j < 2048 then 0 else s.display j, drawFlag := true } := by
  unfold ClearDisplay
  rw [forLoop_display, fill0_eq (fun _ => 0)]

theorem ClearStack_eq (s : Chip8) :
    ClearStack s = { s with stack := fun j => if j < 24 then 0 else s.stack j } := by
  unfold ClearStack
  rw [forLoop_stack, fill0_eq (fun _ => 0)]

/-- The machine after Initialize.  The key array is not touched. -/
theorem Initialize_eq (s : Chip8) :
    Initialize s =
      { currentOpcode := 0,
        memory := fun j =>
          if j < 80 then fontset.getD j 0 else if j < 4096 then 0 else s.memory j,
        registers := fun j => if j < 16 then 0 else s.registers j,
        I := 0, PC := 0x200, delayTimer := 0, soundTimer := 0,
        stack := fun j => if j < 24 then 0 else s.stack j,
        SP := 0,
        display := fun j => if j < 2048 then 0 else s.display j,
        key := s.key, drawFlag := true } := by
  unfold Initialize
  simp only [ClearRegisters_eq, ClearMemory_eq, ClearDisplay_eq, ClearStack_eq]
  rw [forLoop_memory0 (fun i => fontset.getD i 0), fill0_eq (fun i => fontset.getD i 0)]

/-- The result of LoadProgram on a file of at most 3584 bytes. -/
theorem LoadProgram_eq (buffer : List Nat) (s : Chip8) (h : buffer.length ≤ 3584) :
    LoadProgram buffer s =
      (true, { s with memory := fun j =>
        if 512 ≤ j ∧ j < 512 + buffer.length then buffer.getD (j - 512) 0 else s.memory j }) := by
  unfold LoadProgram
  have hn : ¬ (buffer.length > 4096 - 512) := by omega
  simp only [hn, if_false]
  rw [forLoop_memory (fun i => buffer.getD i 0) 512 s buffer.length, fill_eq]

/-! ## DXYN: sprite compositing, collision flag, drawing twice -/

/-- The cells of an N-row sprite are the cells q < 8N. -/
theorem cell_of_row_col (vx vy row col : Nat) (hcol : col < 8) :
    vx + col + 64 * (vy + row) = cellIdx vx vy (8 * row + col) := by
  rw [cellIdx_row vx vy row col hcol, Nat.mul_comm 64]

theorem cellIdx_lt {vx vy N q : Nat} (hvx : vx + 7 ≤ 63) (hvy : vy + N ≤ 32) (hq : q < 8 * N) :
    cellIdx vx vy q < 2048 := by
  unfold cellIdx
  omega

/-- VF after the draw, in terms of the framebuffer before and after it. -/
theorem flagAfter_collision (sprite : Nat → Nat) (vx vy : Nat) (d0 : Nat → Nat) (Q : Nat)
    (hb : ∀ q, q < Q → cellIdx vx vy q < 2048) :
    ((∃ i, i < 2048 ∧ d0 i = 1 ∧ dispAfter sprite vx vy d0 Q i = 0) →
      flagAfter sprite vx vy d0 Q = 1) ∧
    ((¬ ∃ i, i < 2048 ∧ d0 i = 1 ∧ dispAfter sprite vx vy d0 Q i = 0) →
      flagAfter sprite vx vy d0 Q = 0) := by
  constructor
  · rintro ⟨i, _, h1, h0⟩
    by_cases hex : ∃ q, q < Q ∧ cellIdx vx vy q = i
    · obtain ⟨q, hq, rfl⟩ := hex
      have hc := dispAfter_cell sprite vx vy d0 Q q hq
      rw [h0, h1] at hc
      by_cases hon : cellOn sprite q = true
      · exact (flagAfter_one_iff sprite vx vy d0 Q).mpr ⟨q, hq, hon, h1⟩
      · rw [if_neg hon] at hc
        exact absurd hc (by decide)
    · have hno : ∀ q, q < Q → cellIdx vx vy q ≠ i := fun q hq e => hex ⟨q, hq, e⟩
      rw [dispAfter_other sprite vx vy d0 i Q hno, h1] at h0
      exact absurd h0 (by decide)
  · intro hno
    rcases flagAfter_bit sprite vx vy d0 Q with h | h
    · exact h
    · obtain ⟨q, hq, hon, h1⟩ := (flagAfter_one_iff sprite vx vy d0 Q).mp h
      have hc := dispAfter_cell sprite vx vy d0 Q q hq
      rw [if_pos hon, h1] at hc
      exact absurd ⟨cellIdx vx vy q, hb q hq, h1, hc⟩ hno

/-- Visiting the same cells twice with the same sprite bits restores the framebuffer. -/
theorem dispAfter_twice (sprite sprite2 : Nat → Nat) (vx vy : Nat) (d0 : Nat → Nat) (Q : Nat)
    (hs : ∀ q, q < Q → cellOn sprite2 q = cellOn sprite q) :
    dispAfter sprite2 vx vy (dispAfter sprite vx vy d0 Q) Q = d0 := by
  funext i
  by_cases hex : ∃ q, q < Q ∧ cellIdx vx vy q = i
  · obtain ⟨q, hq, rfl⟩ := hex
    rw [dispAfter_cell sprite2 vx vy _ Q q hq, dispAfter_cell sprite vx vy d0 Q q hq, hs q hq,
      Nat.xor_assoc, Nat.xor_self, Nat.xor_zero]
  · have hno : ∀ q, q < Q → cellIdx vx vy q ≠ i := fun q hq e => hex ⟨q, hq, e⟩
    rw [dispAfter_other sprite2 vx vy _ i Q hno, dispAfter_other sprite vx vy d0 i Q hno]

/-- C1.  Let the instruction at PC be DXYN with X, Y <= 14, N <= 15,
vx = reg[X], vy = reg[Y], vx + 7 <= 63, vy + N <= 32 and I + N <= 4096.  One
step returns a machine in which, for every row < N and col < 8, the pixel at
index vx + col + 64 (vy + row) is its old value XOR bit 7 - col of
memory[I + row]; every other pixel is unchanged; VF is 1 if some pixel went
from 1 to 0 and 0 otherwise; the redraw flag is set; PC has advanced by 2.
(Nothing is assumed about the old framebuffer values.) -/
theorem draw_sprite (r : Nat) (s : Chip8) (X Y N : Nat)
    (hX : X ≤ 14) (hY : Y ≤ 14) (hN : N ≤ 15)
    (hvx : s.registers X + 7 ≤ 63) (hvy : s.registers Y + N ≤ 32) (hI : s.I + N ≤ 4096)
    (hi : instrAt s 0xD X Y N) :
    ∃ t, Cycle r s = .ok t ∧
      (∀ row col, row < N → col < 8 →
        t.display (s.registers X + col + 64 * (s.registers Y + row)) =
          s.display (s.registers X + col + 64 * (s.registers Y + row)) ^^^
            spriteBit s row col) ∧
      (∀ i, (∀ row col, row < N → col < 8 →
          i ≠ s.registers X + col + 64 * (s.registers Y + row)) →
        t.display i = s.display i) ∧
      ((∃ i, i < 2048 ∧ s.display i = 1 ∧ t.display i = 0) → t.registers 15 = 1) ∧
      ((¬ ∃ i, i < 2048 ∧ s.display i = 1 ∧ t.display i = 0) → t.registers 15 = 0) ∧
      t.drawFlag = true ∧ t.PC = s.PC + 2 := by
  obtain ⟨t, ct, td, tf, _, tdf, tpc, _, _⟩ := Cycle_draw r s hX hY hN hvx hvy hI hi
  have hfl := flagAfter_collision (fun row => s.memory (s.I + row)) (s.registers X)
    (s.registers Y) s.display (8 * N) (fun q hq => cellIdx_lt hvx hvy hq)
  rw [← td, ← tf] at hfl
  refine ⟨t, ct, ?_, ?_, hfl.1, hfl.2, tdf, tpc⟩
  · intro row col hrow hcol
    rw [cell_of_row_col _ _ row col hcol, td,
      dispAfter_cell _ _ _ _ (8 * N) (8 * row + col) (by omega)]
    exact xor_spriteBit s _ row col hcol
  · intro i hother
    rw [td]
    refine dispAfter_other _ _ _ _ i (8 * N) (fun q hq e => ?_)
    have hq8 : 8 * (q / 8) + q % 8 = q := by omega
    refine hother (q / 8) (q % 8) (by omega) (Nat.mod_lt q (by decide)) ?_
    rw [cell_of_row_col _ _ (q / 8) (q % 8) (Nat.mod_lt q (by decide)), hq8]
    exact e.symm

/-- C7.  Under the conditions of C1 the step on DXYN returns a machine t1;
from any machine u with the framebuffer of t1 and with the same I, reg[X],
reg[Y] and sprite bytes as before the first draw (so t1 itself, when the next
instruction is the same DXYN), the step on DXYN returns a machine whose
framebuffer equals the framebuffer before the first draw, and whose VF is 1 if
and only if this second draw turned some pixel from 1 to 0. -/
theorem draw_twice_restores (r1 r2 : Nat) (s : Chip8) (X Y N : Nat)
    (hX : X ≤ 14) (hY : Y ≤ 14) (hN : N ≤ 15)
    (hvx : s.registers X + 7 ≤ 63) (hvy : s.registers Y + N ≤ 32) (hI : s.I + N ≤ 4096)
    (hi : instrAt s 0xD X Y N) :
    ∃ t1, Cycle r1 s = .ok t1 ∧
      ∀ u : Chip8, u.display = t1.display → u.I = s.I →
        u.registers X = s.registers X → u.registers Y = s.registers Y →
        (∀ row, row < N → u.memory (u.I + row) = s.memory (s.I + row)) →
        instrAt u 0xD X Y N →
        ∃ t2, Cycle r2 u = .ok t2 ∧ t2.display = s.display ∧
          ((∃ i, i < 2048 ∧ u.display i = 1 ∧ t2.display i = 0) → t2.registers 15 = 1) ∧
          ((¬ ∃ i, i < 2048 ∧ u.display i = 1 ∧ t2.display i = 0) → t2.registers 15 = 0) := by
  obtain ⟨t1, c1, d1, _⟩ := Cycle_draw r1 s hX hY hN hvx hvy hI hi
  refine ⟨t1, c1, ?_⟩
  intro u ud uI uX uY um ui
  obtain ⟨t2, c2, d2, f2, _⟩ := Cycle_draw r2 u hX hY hN (by omega) (by omega) (by omega) ui
  have hfl := flagAfter_collision (fun row => u.memory (u.I + row)) (u.registers X)
    (u.registers Y) u.display (8 * N)
    (fun q hq => cellIdx_lt (by omega) (by omega) hq)
  rw [← d2, ← f2] at hfl
  refine ⟨t2, c2, ?_, hfl.1, hfl.2⟩
  rw [d2, ud, d1, uX, uY]
  refine dispAfter_twice _ _ _ _ _ (8 * N) (fun q hq => ?_)
  have hrow := um (q / 8) (by omega)
  simp only [cellOn, hrow]

/-- The scenario of the specification up to the draw: after Initialize and
LoadProgram of 6A02 6B03 A000 DAB5, three steps lead to DAB5 at 0x206 with
VA = 2, VB = 3, I = 0, the font byte F0 at memory[0] and pixel (2, 3) clear; the
draw then leaves VF = 0. -/
theorem drawStart_three_steps :
    ∃ s3 : Chip8, steps (fun _ => 0) 3 drawStart = .ok s3 ∧ instrAt s3 0xD 0xA 0xB 5 ∧
      s3.registers 0xA = 2 ∧ s3.registers 0xB = 3 ∧ s3.I = 0 ∧ s3.memory 0 = 0xF0 ∧
      s3.display (2 + 64 * 3) = 0 ∧ s3.PC = 0x206 ∧
      ∃ T, Cycle 0 s3 = .ok T ∧ T.registers 15 = 0 := by
  unfold drawStart
  rw [Initialize_eq, LoadProgram_eq _ _ (by decide)]
  exact ⟨_, rfl, ⟨(by decide : 0x206 + 1 < 4096), rfl, rfl⟩, rfl, rfl, rfl, rfl, rfl, rfl,
    _, rfl, rfl⟩

/-- C1 on the scenario of the specification: after Initialize and LoadProgram of
6A02 6B03 A000 DAB5, three steps lead to DAB5 with VA = 2, VB = 3 and I = 0, and
the fourth step sets pixel (2, 3) and leaves VF = 0. -/
theorem draw_sprite_witness :
    ∃ s3 t : Chip8, steps (fun _ => 0) 3 drawStart = .ok s3 ∧
      instrAt s3 0xD 0xA 0xB 5 ∧ s3.registers 0xA + 7 ≤ 63 ∧ s3.registers 0xB + 5 ≤ 32 ∧
      s3.I + 5 ≤ 4096 ∧
      Cycle 0 s3 = .ok t ∧ t.display (2 + 64 * 3) = 1 ∧ t.registers 15 = 0 ∧
      t.drawFlag = true ∧ t.PC = 0x208 := by
  obtain ⟨s3, h3, hi, hA, hB, hI, hm, hd, hpc3, T, hT, hTf⟩ := drawStart_three_steps
  obtain ⟨t, ct, hpix, _, _, _, hdf, hpc⟩ :=
    draw_sprite 0 s3 0xA 0xB 5 (by decide) (by decide) (by decide) (by omega) (by omega)
      (by omega) hi
  have htT : t = T := Except.ok.inj (ct.symm.trans hT)
  have hp := hpix 0 0 (by decide) (by decide)
  rw [hA, hB, hd] at hp
  have hbit : spriteBit s3 0 0 = 1 := by
    unfold spriteBit
    rw [hI, hm]
    decide
  rw [hbit] at hp
  refine ⟨s3, t, h3, hi, by omega, by omega, by omega, ct, hp, ?_, hdf, by omega⟩
  rw [htT]
  exact hTf

/-- C7 on D125 drawn at (10, 4) over a set pixel, then drawn again from the
resulting machine with PC put back on the instruction: the framebuffer is the
one before the first draw. -/
theorem draw_twice_restores_witness :
    instrAt drawFixture 0xD 1 2 5 ∧ drawFixture.registers 1 + 7 ≤ 63 ∧
    drawFixture.registers 2 + 5 ≤ 32 ∧ drawFixture.I + 5 ≤ 4096 ∧
    ∃ t1 t2 : Chip8, Cycle 0 drawFixture = .ok t1 ∧
      Cycle 0 { t1 with PC := 0x200 } = .ok t2 ∧ t2.display = drawFixture.display := by
  refine ⟨⟨by decide, rfl, rfl⟩, by decide, by decide, by decide, ?_⟩
  obtain ⟨t1, c1, k⟩ :=
    draw_twice_restores 0 0 drawFixture 1 2 5 (by decide) (by decide) (by decide) (by decide)
      (by decide) (by decide) ⟨by decide, rfl, rfl⟩
  obtain ⟨T, hT, hTI, hT1, hT2, hTm⟩ :
      ∃ T : Chip8, Cycle 0 drawFixture = .ok T ∧ T.I = drawFixture.I ∧
        T.registers 1 = drawFixture.registers 1 ∧ T.registers 2 = drawFixture.registers 2 ∧
        T.memory = drawFixture.memory :=
    ⟨_, rfl, rfl, rfl, rfl, rfl⟩
  have htT : t1 = T := Except.ok.inj (c1.symm.trans hT)
  subst htT
  obtain ⟨t2, c2, d2, _⟩ :=
    k { t1 with PC := 0x200 } rfl hTI hT1 hT2 (fun row _ => by
      show t1.memory (t1.I + row) = _
      rw [hTm, hTI])
      ⟨(by decide : 0x200 + 1 < 4096),
        (by show t1.memory 0x200 = _; rw [hTm]; rfl),
        (by show t1.memory (0x200 + 1) = _; rw [hTm]; rfl)⟩
  exact ⟨t1, t2, c1, c2, d2⟩

/-! ## LoadProgram and Initialize: the contracts -/

theorem getElem?_of_getD (l : List Nat) (i : Nat) (h : i < l.length) :
    l[i]? = some (l.getD i 0) := by
  rw [List.getD_eq_getElem?_getD, List.getElem?_eq_getElem h]
  rfl

/-- C12.  For every machine s and byte sequence bs: when bs is longer than
3584 bytes LoadProgram returns false and the machine is s itself; otherwise it
returns true and a machine with memory[512 + i] = bs[i] for every i below the
length of bs, in which every other memory byte, the registers, I, PC, the stack,
the stack pointer, both timers, the framebuffer and the key state are those of
s. -/
theorem load_program_framed (bs : List Nat) (s : Chip8) :
    (bs.length > 3584 → LoadProgram bs s = (false, s)) ∧
    (bs.length ≤ 3584 →
      ∃ t, LoadProgram bs s = (true, t) ∧
        (∀ i, i < bs.length → bs[i]? = some (t.memory (512 + i))) ∧
        (∀ j, (j < 512 ∨ 512 + bs.length ≤ j) → t.memory j = s.memory j) ∧
        t.registers = s.registers ∧ t.I = s.I ∧ t.PC = s.PC ∧ t.stack = s.stack ∧
        t.SP = s.SP ∧ t.delayTimer = s.delayTimer ∧ t.soundTimer = s.soundTimer ∧
        t.display = s.display ∧ t.key = s.key) := by
  constructor
  · intro h
    unfold LoadProgram
    have hgt : bs.length > 4096 - 512 := by omega
    simp only [hgt, if_true]
  · intro h
    refine ⟨_, LoadProgram_eq bs s h, ?_, ?_, rfl, rfl, rfl, rfl, rfl, rfl, rfl, rfl, rfl⟩
    · intro i hi
      have h1 : 512 ≤ 512 + i ∧ 512 + i < 512 + bs.length := by omega
      have h2 : 512 + i - 512 = i := by omega
      simp only [h1, and_self, if_true, h2]
      exact getElem?_of_getD bs i hi
    · intro j hj
      have h1 : ¬ (512 ≤ j ∧ j < 512 + bs.length) := by omega
      simp only [h1, if_false]

/-- C12 on a file of 3585 zero bytes, which is rejected, and on the 8 bytes of
drawProgram, which are copied to 0x200 and following. -/
theorem load_program_framed_witness :
    LoadProgram (List.replicate 3585 0) blank = (false, blank) ∧
    ∃ t, LoadProgram drawProgram blank = (true, t) ∧ t.memory 0x200 = 0x6A ∧
      t.memory 0x207 = 0xB5 ∧ t.memory 0x208 = 0 ∧ t.PC = blank.PC := by
  refine ⟨(load_program_framed (List.replicate 3585 0) blank).1
    (by rw [List.length_replicate]; decide), ?_⟩
  obtain ⟨t, ht, hm, ho, _, _, hpc, _⟩ :=
    (load_program_framed drawProgram blank).2 (by decide)
  have h0 := hm 0 (by decide)
  have h7 := hm 7 (by decide)
  have h8 := ho 0x208 (Or.inr (by decide))
  exact ⟨t, ht, (Option.some.inj h0).symm, (Option.some.inj h7).symm, h8, hpc⟩

/-- C13.  After Initialize, from every machine s: memory[i] is byte i of the
font table for i < 80 and 0 for 80 <= i < 4096, the 16 registers are 0, I = 0,
PC = 512, the stack pointer and the 24 stack entries are 0, both timers are 0,
the 2048 framebuffer cells are 0 and the redraw flag is set. -/
theorem reset_postcondition (s : Chip8) :
    (∀ i, i < 80 → fontset[i]? = some ((Initialize s).memory i)) ∧
    (∀ i, 80 ≤ i → i < 4096 → (Initialize s).memory i = 0) ∧
    (∀ i, i < 16 → (Initialize s).registers i = 0) ∧
    (Initialize s).I = 0 ∧ (Initialize s).PC = 512 ∧ (Initialize s).SP = 0 ∧
    (∀ i, i < 24 → (Initialize s).stack i = 0) ∧
    (Initialize s).delayTimer = 0 ∧ (Initialize s).soundTimer = 0 ∧
    (∀ i, i < 2048 → (Initialize s).display i = 0) ∧
    (Initialize s).drawFlag = true := by
  rw [Initialize_eq]
  refine ⟨?_, ?_, ?_, rfl, rfl, rfl, ?_, rfl, rfl, ?_, rfl⟩
  · intro i hi
    simp only [hi, if_true]
    exact getElem?_of_getD fontset i hi
  · intro i h80 h4096
    have h1 : ¬ i < 80 := by omega
    simp only [h1, if_false, h4096, if_true]
  · intro i hi
    simp only [hi, if_true]
  · intro i hi
    simp only [hi, if_true]
  · intro i hi
    simp only [hi, if_true]

/-- C13 right after a successful load: Initialize clears the program bytes at
0x200 and writes the first font byte F0 at 0. -/
theorem reset_postcondition_witness :
    (LoadProgram drawProgram blank).1 = true ∧
    (LoadProgram drawProgram blank).2.memory 0x200 = 0x6A ∧
    (Initialize (LoadProgram drawProgram blank).2).memory 0x200 = 0 ∧
    (Initialize (LoadProgram drawProgram blank).2).memory 0 = 0xF0 ∧
    (Initialize (LoadProgram drawProgram blank).2).PC = 512 := by
  have hp := reset_postcondition (LoadProgram drawProgram blank).2
  have hl := LoadProgram_eq drawProgram blank (by decide)
  refine ⟨by rw [hl], by rw [hl]; rfl, hp.2.1 0x200 (by decide) (by decide), ?_, hp.2.2.2.2.1⟩
  exact (Option.some.inj (hp.1 0 (by decide))).symm

/-! ## FX0A without a key: the machine stays where it is -/

theorem lastKey_eq_none (k : Nat → Nat) : ∀ n, (∀ i, i < n → k i = 0) → lastKey k n = none
  | 0, _ => rfl
  | n + 1, h => by
    have hn : ¬ (k n ≠ 0) := not_not.mpr (h n (Nat.lt_succ_self n))
    unfold lastKey
    rw [if_neg hn]
    exact lastKey_eq_none k n (fun i hi => h i (Nat.lt_succ_of_lt hi))

theorem finish_ok_true (s : Chip8) : finish (.ok (s, true)) = .ok s := rfl

/-- The step on FX0A when no key is held down: Cycle returns from inside the
switch, and only currentOpcode has been assigned. -/
theorem Cycle_waitNoKey (r : Nat) (s : Chip8) {x : Nat} (hx : x < 16)
    (hi : instrAt s 0xF x 0 0xA) (hk : ∀ i, i < 16 → s.key i = 0) :
    Cycle r s = .ok { s with currentOpcode := word 0xF x 0 0xA } := by
  have hb := word_byte (h := 0xF) (x := x) (y := 0) (n := 0xA) (by decide) (by decide)
  have hr := word_reg (h := 0xF) (x := x) (y := 0) (n := 0xA) hx (by decide) (by decide)
  have hl : lastKey ({ s with currentOpcode := word 0xF x 0 0xA } : Chip8).key 16 = none :=
    lastKey_eq_none s.key 16 hk
  rw [Cycle_instrAt r hi (by decide) hx (by decide) (by decide),
    execute_F r _ hx (by decide) (by decide) rfl]
  unfold execF
  simp only [hb, hr]
  rw [scan_fields]
  simp [hl, finish_ok_true]

/-- Any number of steps on FX0A without a key: every field except
currentOpcode keeps its value. -/
theorem steps_waitNoKey (rnd : Nat → Nat) (s : Chip8) {x : Nat} (hx : x < 16)
    (hi : instrAt s 0xF x 0 0xA) (hk : ∀ i, i < 16 → s.key i = 0) : ∀ n,
    ∃ c, steps rnd n s = .ok { s with currentOpcode := c }
  | 0 => ⟨s.currentOpcode, rfl⟩
  | n + 1 => by
    obtain ⟨c, hc⟩ := steps_waitNoKey rnd s hx hi hk n
    refine ⟨word 0xF x 0 0xA, ?_⟩
    have hstep := Cycle_waitNoKey (rnd n) { s with currentOpcode := c } hx hi hk
    simp only [steps, hc]
    exact hstep

/-- C15.  When the instruction at PC is FX0A and all 16 keys are 0, then for
every n the n-th of n successive steps returns a machine whose PC, registers,
I, memory, stack and framebuffer are those before the first step. -/
theorem wait_for_key_suspends (rnd : Nat → Nat) (s : Chip8) (X n : Nat) (hX : X < 16)
    (hi : instrAt s 0xF X 0 0xA) (hk : ∀ i, i < 16 → s.key i = 0) :
    ∃ t, steps rnd n s = .ok t ∧ t.PC = s.PC ∧ t.registers = s.registers ∧ t.I = s.I ∧
      t.memory = s.memory ∧ t.stack = s.stack ∧ t.display = s.display := by
  obtain ⟨c, hc⟩ := steps_waitNoKey rnd s hX hi hk n
  exact ⟨_, hc, rfl, rfl, rfl, rfl, rfl, rfl⟩

/-- C15 on F00A with no key held down, after 3 steps. -/
theorem wait_for_key_suspends_witness :
    instrAt waitFixture 0xF 0 0 0xA ∧ (∀ i, i < 16 → waitFixture.key i = 0) ∧
    ∃ t, steps (fun _ => 0) 3 waitFixture = .ok t ∧ t.PC = waitFixture.PC ∧
      t.registers = waitFixture.registers ∧ t.I = waitFixture.I ∧
      t.memory = waitFixture.memory ∧ t.stack = waitFixture.stack ∧
      t.display = waitFixture.display :=
  ⟨⟨by decide, rfl, rfl⟩, fun _ _ => rfl,
    wait_for_key_suspends (fun _ => 0) waitFixture 0 3 (by decide) ⟨by decide, rfl, rfl⟩
      (fun _ _ => rfl)⟩

/-! ## 8XY7: the comparison is strict -/

/-- C16, evaluated on 8017 with V0 = V1 = 7: the step leaves VF = 0 although
V1 >= V0 and no borrow occurs (the claim gives VF = 1); V0 becomes 0. -/
theorem rsub_equal_operands_clears_flag :
    ∃ t, Cycle 0 rsubFixture = .ok t ∧ t.registers 15 = 0 ∧ t.registers 0 = 0 ∧
      rsubFixture.registers 0 = 7 ∧ rsubFixture.registers 1 = 7 :=
  ⟨_, rfl, rfl, rfl, rfl, rfl⟩

/-! ## 8XYE -/

/-- The step on 8XYE. -/
theorem Cycle_shiftLeft (r : Nat) (s : Chip8) {x y : Nat} (hx : x < 16) (hy : y < 16)
    (hi : instrAt s 8 x y 0xE) :
    Cycle r s = .ok (timers (incPC (setReg
      (setReg { s with currentOpcode := word 8 x y 0xE } y ((s.registers y <<< 1) % 256))
      x ((s.registers y <<< 1) % 256)))) := by
  have hr := word_reg (h := 8) (x := x) (y := y) (n := 0xE) hx hy (by decide)
  have hr2 := word_reg2 (h := 8) (x := x) (y := y) (n := 0xE) hy (by decide)
  have hl := word_low (h := 8) (x := x) (y := y) (n := 0xE) (by decide)
  rw [Cycle_instrAt r hi (by decide) hx hy (by decide),
    execute_8 r _ hx hy (by decide) rfl]
  unfold exec8
  simp [hr, hr2, hl, setReg, upd]

/-- C18.  When the instruction at PC is 8XYE with X, Y <= 14 and b = reg[Y], one
step leaves reg[X] = reg[Y] = (2 b) mod 256, leaves VF and every register
other than X and Y unchanged, and advances PC by 2. -/
theorem shift_left_leaves_flag (r : Nat) (s : Chip8) (X Y : Nat) (hX : X ≤ 14) (hY : Y ≤ 14)
    (hi : instrAt s 8 X Y 0xE) :
    ∃ t, Cycle r s = .ok t ∧ t.registers X = (2 * s.registers Y) % 256 ∧
      t.registers Y = (2 * s.registers Y) % 256 ∧ t.registers 15 = s.registers 15 ∧
      (∀ j, j ≠ X → j ≠ Y → t.registers j = s.registers j) ∧ t.PC = s.PC + 2 := by
  have hsh : s.registers Y <<< 1 = 2 * s.registers Y := by
    rw [Nat.shiftLeft_eq]; omega
  have hX15 : ¬ (15 = X) := by omega
  have hY15 : ¬ (15 = Y) := by omega
  have hpc : (s.PC + 2) % 65536 = s.PC + 2 := by have := hi.1; omega
  refine ⟨_, Cycle_shiftLeft r s (by omega) (by omega) hi, ?_, ?_, ?_, ?_, ?_⟩
  · rw [(timers_fields _).2.1]
    simp [incPC, setReg, upd, hsh]
  · rw [(timers_fields _).2.1]
    by_cases hYX : Y = X
    · subst hYX
      simp [incPC, setReg, upd, hsh]
    · simp [incPC, setReg, upd, hsh, hYX]
  · rw [(timers_fields _).2.1]
    simp [incPC, setReg, upd, hX15, hY15]
  · intro j hjX hjY
    rw [(timers_fields _).2.1]
    simp [incPC, setReg, upd, hjX, hjY]
  · rw [(timers_fields _).1]
    exact hpc

/-- C18 on 801E with V1 = 0x81 and VF = 1: V0 = V1 = 2 and VF is still 1. -/
theorem shift_left_leaves_flag_witness :
    instrAt shiftFixture 8 0 1 0xE ∧
    ∃ t, Cycle 0 shiftFixture = .ok t ∧ t.registers 0 = 2 ∧ t.registers 1 = 2 ∧
      t.registers 15 = 1 ∧ t.PC = 0x202 := by
  refine ⟨⟨by decide, rfl, rfl⟩, ?_⟩
  obtain ⟨t, ct, h0, h1, hf, _, hpc⟩ :=
    shift_left_leaves_flag 0 shiftFixture 0 1 (by decide) (by decide) ⟨by decide, rfl, rfl⟩
  exact ⟨t, ct, h0, h1, hf, hpc⟩

/-! ## FX33 -/

/-- The step on FX33 when the three bytes from I on lie inside memory. -/
theorem Cycle_bcd (r : Nat) (s : Chip8) {x : Nat} (hx : x < 16)
    (hi : instrAt s 0xF x 3 3) (hI : s.I + 2 < 4096) :
    Cycle r s = .ok (timers (incPC { s with
      currentOpcode := word 0xF x 3 3,
      memory := upd (upd (upd s.memory s.I (s.registers x / 100))
        (s.I + 1) ((s.registers x / 10) % 10)) (s.I + 2) ((s.registers x % 100) % 10) })) := by
  have hb := word_byte (h := 0xF) (x := x) (y := 3) (n := 3) (by decide) (by decide)
  have hr := word_reg (h := 0xF) (x := x) (y := 3) (n := 3) hx (by decide) (by decide)
  have h0 : s.I < 4096 := by omega
  have h1 : s.I + 1 < 4096 := by omega
  rw [Cycle_instrAt r hi (by decide) hx (by decide) (by decide),
    execute_F r _ hx (by decide) (by decide) rfl]
  unfold execF
  simp only [hb, hr]
  simp [writeMem, h0, h1, hI]

/-- C17.  When the instruction at PC is FX33, v = reg[X] is a byte and
I + 2 < 4096, one step leaves memory[I] = v div 100, memory[I + 1] =
(v div 10) mod 10 and memory[I + 2] = v mod 10; each of the three is at most 9
and 100 memory[I] + 10 memory[I + 1] + memory[I + 2] = v; every other memory
byte, I and the registers are unchanged. -/
theorem bcd_digits (r : Nat) (s : Chip8) (X : Nat) (hX : X < 16)
    (hv : s.registers X < 256) (hI : s.I + 2 < 4096) (hi : instrAt s 0xF X 3 3) :
    ∃ t, Cycle r s = .ok t ∧
      t.memory s.I = s.registers X / 100 ∧
      t.memory (s.I + 1) = (s.registers X / 10) % 10 ∧
      t.memory (s.I + 2) = s.registers X % 10 ∧
      t.memory s.I ≤ 9 ∧ t.memory (s.I + 1) ≤ 9 ∧ t.memory (s.I + 2) ≤ 9 ∧
      100 * t.memory s.I + 10 * t.memory (s.I + 1) + t.memory (s.I + 2) = s.registers X ∧
      (∀ j, j ≠ s.I → j ≠ s.I + 1 → j ≠ s.I + 2 → t.memory j = s.memory j) ∧
      t.I = s.I ∧ t.registers = s.registers := by
  have hm0 : (timers (incPC { s with
      currentOpcode := word 0xF X 3 3,
      memory := upd (upd (upd s.memory s.I (s.registers X / 100))
        (s.I + 1) ((s.registers X / 10) % 10)) (s.I + 2) ((s.registers X % 100) % 10) })).memory =
      upd (upd (upd s.memory s.I (s.registers X / 100))
        (s.I + 1) ((s.registers X / 10) % 10)) (s.I + 2) ((s.registers X % 100) % 10) := by
    rw [(timers_fields _).2.2.2.1]; rfl
  have e0 : upd (upd (upd s.memory s.I (s.registers X / 100))
        (s.I + 1) ((s.registers X / 10) % 10)) (s.I + 2) ((s.registers X % 100) % 10) s.I =
      s.registers X / 100 := by simp [upd]
  have e1 : upd (upd (upd s.memory s.I (s.registers X / 100))
        (s.I + 1) ((s.registers X / 10) % 10)) (s.I + 2) ((s.registers X % 100) % 10) (s.I + 1) =
      (s.registers X / 10) % 10 := by simp [upd]
  have e2 : upd (upd (upd s.memory s.I (s.registers X / 100))
        (s.I + 1) ((s.registers X / 10) % 10)) (s.I + 2) ((s.registers X % 100) % 10) (s.I + 2) =
      s.registers X % 10 := by
    simp only [upd, if_true]
    omega
  refine ⟨_, Cycle_bcd r s hX hi hI, ?_, ?_, ?_, ?_, ?_, ?_, ?_, ?_, ?_, ?_⟩
  · rw [hm0, e0]
  · rw [hm0, e1]
  · rw [hm0, e2]
  · rw [hm0, e0]; omega
  · rw [hm0, e1]; omega
  · rw [hm0, e2]; omega
  · rw [hm0, e0, e1, e2]; omega
  · intro j h0 h1 h2
    rw [hm0]
    simp [upd, h0, h1, h2]
  · rw [(timers_fields _).2.2.1]; rfl
  · rw [(timers_fields _).2.1]; rfl

/-- C17 on F033 with V0 = 254 and I = 0x300: the digits 2, 5, 4. -/
theorem bcd_digits_witness :
    bcdFixture.registers 0 < 256 ∧ bcdFixture.I + 2 < 4096 ∧ instrAt bcdFixture 0xF 0 3 3 ∧
    ∃ t, Cycle 0 bcdFixture = .ok t ∧ t.memory 0x300 = 2 ∧ t.memory 0x301 = 5 ∧
      t.memory 0x302 = 4 := by
  refine ⟨by decide, by decide, ⟨by decide, rfl, rfl⟩, ?_⟩
  obtain ⟨t, ct, h0, h1, h2, _⟩ :=
    bcd_digits 0 bcdFixture 0 (by decide) (by decide) (by decide) ⟨by decide, rfl, rfl⟩
  exact ⟨t, ct, h0, h1, h2⟩

/-! ## CXNN: the random value is reduced modulo 255 -/

theorem execute_C (r : Nat) (s : Chip8) {x y n : Nat} (hx : x < 16) (hy : y < 16) (hn : n < 16)
    (hop : s.currentOpcode = word 0xC x y n) :
    execute r s = .ok (incPC (setReg s x (((r % 255) &&& (16 * y + n)) % 256)), false) := by
  have ht := word_top (h := 0xC) (by decide) hx hy hn
  have hr := word_reg (h := 0xC) (x := x) (y := y) (n := n) hx hy hn
  have hb := word_byte (h := 0xC) (x := x) (y := y) (n := n) hy hn
  have hc : opConst (word 0xC x y n) = 16 * y + n := by
    unfold opConst; rw [hb]; omega
  unfold execute
  simp [hop, ht, hr, hc]

/-- The step on CXNN when rand() returns r. -/
theorem Cycle_rand (r : Nat) (s : Chip8) {x y n : Nat} (hx : x < 16) (hy : y < 16)
    (hn : n < 16) (hi : instrAt s 0xC x y n) :
    Cycle r s = .ok (timers (incPC (setReg { s with currentOpcode := word 0xC x y n } x
      (((r % 255) &&& (16 * y + n)) % 256)))) := by
  rw [Cycle_instrAt r hi (by decide) hx hy hn, execute_C r _ hx hy hn rfl, finish_ok_false]

/-- C20, evaluated on C0FF for every value r of rand(): the step leaves
V0 = r mod 255, which is at most 254, so no r leaves V0 = 255 (the claim
gives an r for every byte value, 255 included). -/
theorem random_byte_never_255 (r : Nat) :
    ∃ t, Cycle r randFixture = .ok t ∧ t.registers 0 = r % 255 ∧ t.registers 0 ≠ 255 := by
  have hc := Cycle_rand r randFixture (x := 0) (y := 0xF) (n := 0xF) (by decide) (by decide)
    (by decide) ⟨by decide, rfl, rfl⟩
  have hv : ((r % 255) &&& (16 * 0xF + 0xF)) % 256 = r % 255 := by
    rw [and_00FF]; omega
  have hreg : (timers (incPC (setReg { randFixture with currentOpcode := word 0xC 0 0xF 0xF } 0
      (((r % 255) &&& (16 * 0xF + 0xF)) % 256)))).registers 0 = r % 255 := by
    rw [(timers_fields _).2.1, hv]
    simp [incPC, setReg, upd]
  refine ⟨_, hc, hreg, ?_⟩
  rw [hreg]
  omega

/-! ## DXYN past column 63 -/

/-- C14, evaluated on two machines.  On D121 with V1 = 60, V2 = 0 and the sprite
byte FF on a clear framebuffer the sprite rectangle is columns 60..67 of row 0,
but the step sets the pixel at index 64, which is column 0 of row 1 (and
likewise columns 1..3), while column 4 of row 1 stays clear.  On D121 with
V1 = 255, V2 = 30 and the sprite byte 80 the step accesses display[2175], outside
the 2048 cells of the framebuffer, and returns no state. -/
theorem draw_spills_into_next_row :
    (instrAt spillFixture 0xD 1 2 1 ∧ spillFixture.registers 1 = 60 ∧
      spillFixture.registers 2 = 0 ∧ spillFixture.display (0 + 64 * 1) = 0 ∧
      ∃ t, Cycle 0 spillFixture = .ok t ∧ t.display (0 + 64 * 1) = 1 ∧
        t.display (3 + 64 * 1) = 1 ∧ t.display (4 + 64 * 1) = 0 ∧
        t.display (63 + 64 * 0) = 1) ∧
    (instrAt edgeFixture 0xD 1 2 1 ∧ edgeFixture.registers 1 = 255 ∧
      edgeFixture.registers 2 = 30 ∧ Cycle 0 edgeFixture = .error (.display 2175)) :=
  ⟨⟨⟨by decide, rfl, rfl⟩, rfl, rfl, rfl, _, rfl, rfl, rfl, rfl, rfl⟩,
    ⟨by decide, rfl, rfl⟩, rfl, rfl, rfl⟩

/-! ## 2NNN on a full stack -/

/-- C11, evaluated from reset: after Initialize and LoadProgram of 2200 (a call
of its own address), 24 steps return a machine with SP = 24 and 2200 at PC, and
the next step writes stack[24], outside the 24 entries of the stack; no state is
returned. -/
theorem call_on_full_stack_writes_outside :
    ∃ s24 : Chip8, steps (fun _ => 0) 24 callStart = .ok s24 ∧ s24.SP = 24 ∧
      instrAt s24 2 2 0 0 ∧ Cycle 0 s24 = .error (.stack 24) := by
  unfold callStart
  rw [Initialize_eq, LoadProgram_eq _ _ (by decide)]
  exact ⟨_, rfl, rfl, ⟨(by decide : 0x200 + 1 < 4096), rfl, rfl⟩, rfl⟩

/-! ## 00E0 and 1NNN: the clear-then-jump program -/

theorem exec0_clear (s : Chip8) (hb : s.currentOpcode &&& 0x00FF = 0x00E0) :
    exec0 s = .ok (incPC (ClearDisplay s)) := by
  unfold exec0
  rw [if_pos hb]

/-- The step on 00E0. -/
theorem Cycle_clear (r : Nat) (s : Chip8) (hi : instrAt s 0 0 0xE 0) :
    Cycle r s = .ok (timers (incPC (ClearDisplay { s with currentOpcode := word 0 0 0xE 0 }))) := by
  have hb := word_byte (h := 0) (x := 0) (y := 0xE) (n := 0) (by decide) (by decide)
  rw [Cycle_instrAt r hi (by decide) (by decide) (by decide) (by decide),
    execute_0 r _ (by decide) (by decide) (by decide) rfl,
    exec0_clear { s with currentOpcode := word 0 0 0xE 0 } hb, finish_through_ok]

theorem execute_1 (r : Nat) (s : Chip8) {x y n : Nat} (hx : x < 16) (hy : y < 16) (hn : n < 16)
    (hop : s.currentOpcode = word 1 x y n) :
    execute r s = .ok ({ s with PC := 256 * x + 16 * y + n }, false) := by
  have ht := word_top (h := 1) (by decide) hx hy hn
  have ha := word_addr (h := 1) hx hy hn
  have hm : (256 * x + 16 * y + n) % 65536 = 256 * x + 16 * y + n := by omega
  unfold execute
  simp [hop, ht, ha, hm]

/-- The step on 1NNN. -/
theorem Cycle_jump (r : Nat) (s : Chip8) {x y n : Nat} (hx : x < 16) (hy : y < 16)
    (hn : n < 16) (hi : instrAt s 1 x y n) :
    Cycle r s = .ok (timers { s with
      currentOpcode := word 1 x y n, PC := 256 * x + 16 * y + n }) := by
  rw [Cycle_instrAt r hi (by decide) hx hy hn, execute_1 r _ hx hy hn rfl, finish_ok_false]

/-- From a machine that holds 00E0 at 0x200 and 1200 at 0x202 and whose PC is
0x200, the step clears the framebuffer, sets the redraw flag and moves PC to
0x202. -/
theorem loop_step_clear (r : Nat) (t : Chip8) (hpc : t.PC = 0x200)
    (h0 : t.memory 0x200 = 0x00) (h1 : t.memory 0x201 = 0xE0) :
    ∃ u, Cycle r t = .ok u ∧ u.PC = 0x202 ∧ u.memory = t.memory ∧
      (∀ i, i < 2048 → u.display i = 0) ∧ u.drawFlag = true := by
  have hi : instrAt t 0 0 0xE 0 := by
    refine ⟨by rw [hpc]; decide, by rw [hpc, h0], by rw [hpc]; exact h1⟩
  refine ⟨_, Cycle_clear r t hi, ?_, ?_, ?_, ?_⟩
  · rw [(timers_fields _).1]
    simp only [incPC, ClearDisplay_eq, hpc]
  · rw [(timers_fields _).2.2.2.1, ClearDisplay_eq]; rfl
  · intro i hlt
    rw [(timers_fields _).2.2.2.2.2.2.1, ClearDisplay_eq]
    simp [incPC, hlt]
  · rw [(timers_fields _).2.2.2.2.2.2.2.2.1, ClearDisplay_eq]; rfl

/-- From a machine that holds 1200 at 0x202 and whose PC is 0x202, the step
moves PC to 0x200 and leaves memory and framebuffer alone. -/
theorem loop_step_jump (r : Nat) (t : Chip8) (hpc : t.PC = 0x202)
    (h2 : t.memory 0x202 = 0x12) (h3 : t.memory 0x203 = 0x00) :
    ∃ u, Cycle r t = .ok u ∧ u.PC = 0x200 ∧ u.memory = t.memory ∧ u.display = t.display := by
  have hi : instrAt t 1 2 0 0 := by
    refine ⟨by rw [hpc]; decide, by rw [hpc, h2], by rw [hpc]; exact h3⟩
  refine ⟨_, Cycle_jump r t (by decide) (by decide) (by decide) hi, ?_, ?_, ?_⟩
  · rw [(timers_fields _).1]
  · rw [(timers_fields _).2.2.2.1]
  · rw [(timers_fields _).2.2.2.2.2.2.1]

/-- The program 00E0 1200 keeps running: from a machine with the program in
memory, PC = 0x202 and a clear framebuffer, n steps return a machine with the
program in memory and a clear framebuffer, whose PC is 0x202 for even n and
0x200 for odd n. -/
theorem loop_steps (rnd : Nat → Nat) (t1 : Chip8) (hpc : t1.PC = 0x202)
    (h0 : t1.memory 0x200 = 0x00) (h1 : t1.memory 0x201 = 0xE0)
    (h2 : t1.memory 0x202 = 0x12) (h3 : t1.memory 0x203 = 0x00)
    (hd : ∀ i, i < 2048 → t1.display i = 0) : ∀ n,
    ∃ t, steps rnd n t1 = .ok t ∧ t.PC = (if n % 2 = 1 then 0x200 else 0x202) ∧
      t.memory = t1.memory ∧ ∀ i, i < 2048 → t.display i = 0
  | 0 => ⟨t1, rfl, hpc, rfl, hd⟩
  | n + 1 => by
    obtain ⟨t, ht, tpc, tm, td⟩ := loop_steps rnd t1 hpc h0 h1 h2 h3 hd n
    simp only [steps, ht]
    by_cases hodd : n % 2 = 1
    · rw [if_pos hodd] at tpc
      obtain ⟨u, cu, upc, um, ud, _⟩ :=
        loop_step_clear (rnd n) t tpc (by rw [tm]; exact h0) (by rw [tm]; exact h1)
      have hn : ¬ ((n + 1) % 2 = 1) := by omega
      exact ⟨u, cu, by rw [if_neg hn]; exact upc, um.trans tm, ud⟩
    · rw [if_neg hodd] at tpc
      obtain ⟨u, cu, upc, um, ud⟩ :=
        loop_step_jump (rnd n) t tpc (by rw [tm]; exact h2) (by rw [tm]; exact h3)
      have hn : (n + 1) % 2 = 1 := by omega
      exact ⟨u, cu, by rw [if_pos hn]; exact upc, um.trans tm, fun i hi => by rw [ud]; exact td i hi⟩

/-- The machine after reset and load of 00E0 1200 has PC = 0x200 and the four
program bytes at 0x200. -/
theorem loopStart_fields (s0 : Chip8) :
    (loopStart s0).PC = 0x200 ∧ (loopStart s0).memory 0x200 = 0x00 ∧
    (loopStart s0).memory 0x201 = 0xE0 ∧ (loopStart s0).memory 0x202 = 0x12 ∧
    (loopStart s0).memory 0x203 = 0x00 := by
  unfold loopStart
  rw [Initialize_eq, LoadProgram_eq _ _ (by decide)]
  exact ⟨rfl, rfl, rfl, rfl, rfl⟩

/-- C19 fails as stated.  After reset, load of 00 E0 12 00 and one step, two
further steps leave PC at 0x202, not at 0x200: the jump at 0x202 goes back to the
clear instruction at 0x200, which is then executed again. -/
theorem clear_then_jump_revisits_clear :
    ∃ t1 t : Chip8, Cycle 0 (loopStart blank) = .ok t1 ∧ steps (fun _ => 0) 2 t1 = .ok t ∧
      t.PC = 0x202 ∧ t.PC ≠ 0x200 := by
  obtain ⟨hpc, h0, h1, h2, h3⟩ := loopStart_fields blank
  obtain ⟨t1, c1, p1, m1, d1, _⟩ := loop_step_clear 0 (loopStart blank) hpc h0 h1
  obtain ⟨t, ct, tpc, _, _⟩ := loop_steps (fun _ => 0) t1 p1 (by rw [m1]; exact h0)
    (by rw [m1]; exact h1) (by rw [m1]; exact h2) (by rw [m1]; exact h3) d1 2
  have hpc2 : t.PC = 0x202 := tpc
  exact ⟨t1, t, c1, ct, hpc2, by rw [hpc2]; decide⟩

/-- C19 as amended.  After reset (from any machine s0) and load of the four
bytes 00 E0 12 00, one step returns a machine with an all-zero framebuffer and
the redraw flag set; and for every n >= 1, n further steps return a machine
whose PC is 0x200 when n is odd and 0x202 when n is even, and whose framebuffer
is still all zero. -/
theorem clear_then_jump_alternates (s0 : Chip8) (r : Nat) (rnd : Nat → Nat) :
    ∃ t1, Cycle r (loopStart s0) = .ok t1 ∧ (∀ i, i < 2048 → t1.display i = 0) ∧
      t1.drawFlag = true ∧
      ∀ n, 1 ≤ n → ∃ t, steps rnd n t1 = .ok t ∧
        t.PC = (if n % 2 = 1 then 0x200 else 0x202) ∧ ∀ i, i < 2048 → t.display i = 0 := by
  obtain ⟨hpc, h0, h1, h2, h3⟩ := loopStart_fields s0
  obtain ⟨t1, c1, p1, m1, d1, f1⟩ := loop_step_clear r (loopStart s0) hpc h0 h1
  refine ⟨t1, c1, d1, f1, fun n _ => ?_⟩
  obtain ⟨t, ct, tpc, _, td⟩ := loop_steps rnd t1 p1 (by rw [m1]; exact h0)
    (by rw [m1]; exact h1) (by rw [m1]; exact h2) (by rw [m1]; exact h3) d1 n
  exact ⟨t, ct, tpc, td⟩

/-- The amended C19 from the machine blank: one further step leaves PC = 0x200,
two further steps leave PC = 0x202. -/
theorem clear_then_jump_alternates_witness :
    ∃ t1 ta tb : Chip8, Cycle 0 (loopStart blank) = .ok t1 ∧ t1.drawFlag = true ∧
      steps (fun _ => 0) 1 t1 = .ok ta ∧ ta.PC = 0x200 ∧
      steps (fun _ => 0) 2 t1 = .ok tb ∧ tb.PC = 0x202 ∧ tb.display 0 = 0 := by
  obtain ⟨t1, c1, _, f1, k⟩ := clear_then_jump_alternates blank 0 (fun _ => 0)
  obtain ⟨ta, ca, pa, _⟩ := k 1 (by decide)
  obtain ⟨tb, cb, pb, db⟩ := k 2 (by decide)
  exact ⟨t1, ta, tb, c1, f1, ca, pa, cb, pb, db 0 (by decide)⟩

end NovaChip8
